import Mathlib

/-!
Shallow embedding of the fixed-capacity particle system
(`ParticleSystem.cpp`, namespace `love::graphics::opengl`).

Machine `float` scalars are modelled as `ℚ`; the transcendental helpers
(`cosf`, `sinf`, `atan2f`, `sqrtf`) are supplied as an explicit parameter
record since they have no exact rational counterpart.  The file-scope
`RandomGenerator rng` global of the source is threaded through the system
state as an explicit stream of draws.  Pointers into the particle array
(`Particle *`) are modelled as indices (`ℕ`) into a function store
`mem : ℕ → Particle`, with `Option ℕ` for possibly-null pointers; the
allocation pointer `pFree` is modelled as the index `free = pFree - pMem`.
-/

namespace Love

/-- `Colorf` (normalized float channels). -/
structure Colorf where
  r : ℚ
  g : ℚ
  b : ℚ
  a : ℚ
  deriving Repr, DecidableEq

/-- Componentwise scalar multiplication of a color, as used by
`colors[i] * (1.0f - s)` in the color-curve interpolation. -/
def Colorf.smul (c : Colorf) (q : ℚ) : Colorf :=
  ⟨c.r * q, c.g * q, c.b * q, c.a * q⟩

/-- Componentwise color addition. -/
def Colorf.add (c d : Colorf) : Colorf :=
  ⟨c.r + d.r, c.g + d.g, c.b + d.b, c.a + d.a⟩

/-- 2D vector (`love::Vector`). -/
structure Vec where
  x : ℚ
  y : ℚ
  deriving Repr, DecidableEq

def Vec.add (v w : Vec) : Vec := ⟨v.x + w.x, v.y + w.y⟩

def Vec.sub (v w : Vec) : Vec := ⟨v.x - w.x, v.y - w.y⟩

def Vec.smul (v : Vec) (q : ℚ) : Vec := ⟨v.x * q, v.y * q⟩

/-- Insert modes of the pool (`InsertMode`). -/
inductive InsertMode where
  | top
  | bottom
  | random
  deriving Repr, DecidableEq

/-- Area-spread distributions (`AreaSpreadDistribution`). -/
inductive Distribution where
  | none
  | uniform
  | normal
  deriving Repr, DecidableEq

/-- One particle record (`ParticleSystem::Particle`).  The intrusive
doubly-linked-list pointers `prev`/`next` are indices into the pool,
`Option.none` standing for a null pointer. -/
structure Particle where
  prev : Option ℕ
  next : Option ℕ
  life : ℚ
  lifetime : ℚ
  posX : ℚ
  posY : ℚ
  originX : ℚ
  originY : ℚ
  velX : ℚ
  velY : ℚ
  linAccX : ℚ
  linAccY : ℚ
  radialAcceleration : ℚ
  tangentialAcceleration : ℚ
  linearDamping : ℚ
  direction : ℚ
  sizeOffset : ℚ
  sizeIntervalSize : ℚ
  size : ℚ
  spinStart : ℚ
  spinEnd : ℚ
  rotation : ℚ
  angle : ℚ
  color : Colorf
  quadIndex : ℕ

/-- `new Particle[size]` leaves POD members indeterminate; the model fills
fresh slots with this fixed record.  No invariant below depends on these
values: a slot's fields are always overwritten before they are read. -/
def Particle.blank : Particle :=
  { prev := none, next := none, life := 0, lifetime := 0, posX := 0, posY := 0
    originX := 0, originY := 0, velX := 0, velY := 0, linAccX := 0, linAccY := 0
    radialAcceleration := 0, tangentialAcceleration := 0, linearDamping := 0
    direction := 0, sizeOffset := 0, sizeIntervalSize := 0, size := 0
    spinStart := 0, spinEnd := 0, rotation := 0, angle := 0
    color := ⟨0, 0, 0, 0⟩, quadIndex := 0 }

instance : Inhabited Particle := ⟨Particle.blank⟩

/-- A particle's non-link fields (everything `*p = *pFree` copies that is
not a list pointer); used to state what the compaction swap transports. -/
def Particle.payload (p : Particle) : Particle :=
  { p with prev := none, next := none }

/-- Modelled from the spec: the external Random Source (§6), the file-scope
`love::math::RandomGenerator rng` whose implementation is not under `src/`.
`q` is the stream of uniform draws in `[0,1)` consumed by `random()` and,
indirectly, `random(max)`, `random(min,max)` and `randomNormal`; `n` is the
stream of wide unsigned draws consumed by `rand()`.  `qi`/`ni` are the
positions of the next unconsumed draw. -/
structure RNG where
  q : ℕ → ℚ
  n : ℕ → ℕ
  qi : ℕ
  ni : ℕ

/-- `rng.random()`: one uniform draw from `[0,1)`. -/
def RNG.random (r : RNG) : ℚ × RNG :=
  (r.q r.qi, { r with qi := r.qi + 1 })

/-- Modelled from the spec: `uniform(max)` = `random() * max`. -/
def RNG.random1 (r : RNG) (max : ℚ) : ℚ × RNG :=
  let (d, r') := r.random
  (d * max, r')

/-- Modelled from the spec: `uniform(min,max)` = `random() * (max-min) + min`. -/
def RNG.random2 (r : RNG) (lo hi : ℚ) : ℚ × RNG :=
  let (d, r') := r.random
  (d * (hi - lo) + lo, r')

/-- Modelled from the spec: `normal(stdDev)`; the draw stream supplies the
standard-normal variate, which is scaled by the standard deviation. -/
def RNG.randomNormal (r : RNG) (stddev : ℚ) : ℚ × RNG :=
  let (d, r') := r.random
  (d * stddev, r')

/-- `rng.rand()`: one wide unsigned integer draw. -/
def RNG.randNat (r : RNG) : ℕ × RNG :=
  (r.n r.ni, { r with ni := r.ni + 1 })

/-- The transcendental float helpers used by the source (`cosf`, `sinf`,
`atan2f` and the `sqrtf` inside `love::Vector::getLength`), supplied as an
explicit external-math parameter since they have no rational counterpart. -/
structure MathOps where
  cosf : ℚ → ℚ
  sinf : ℚ → ℚ
  atan2f : ℚ → ℚ → ℚ
  sqrtf : ℚ → ℚ

/-- `calculate_variation(inner, outer, var)` (anonymous namespace, lines
51–57): one uniform draw `r`, result `low*(1-r) + high*r`. -/
def calcVariation (rng : RNG) (inner outer var : ℚ) : ℚ × RNG :=
  let low := inner - (outer / 2) * var
  let high := inner + (outer / 2) * var
  let (r, rng') := rng.random
  (low * (1 - r) + high * r, rng')

/-- C truncation toward zero, the arithmetic value of a float-to-integer
cast.  (For a negative operand a C cast to `size_t` is undefined behaviour;
the model uses the truncated value, which is what `cvttss2si` produces.) -/
def truncToZero (q : ℚ) : ℤ :=
  if 0 ≤ q then ⌊q⌋ else -⌊-q⌋

/-- The index computed by `initParticle` line 300,
`(size_t)(p->sizeOffset - .5f) * (sizes.size() - 1)`, as an integer
(`n` is `sizes.size()`). -/
def initSizeIndex (sizeOffset : ℚ) (n : ℕ) : ℤ :=
  truncToZero (sizeOffset - 1/2) * ((n : ℤ) - 1)

/-- The size-curve evaluation of `update` (lines 973–978): scale the
windowed age onto the control-point index space, truncate to get the lower
bracketing index `i`, clamp the upper index `k` at the last point, and
linearly interpolate. -/
def evalSizeCurve (sizes : List ℚ) (sizeOffset sizeIntervalSize t : ℚ) : ℚ :=
  let s0 := sizeOffset + t * sizeIntervalSize
  let s1 := s0 * ((sizes.length : ℚ) - 1)
  let i : ℕ := (truncToZero s1).toNat
  let k : ℕ := if i = sizes.length - 1 then i else i + 1
  let s := s1 - (i : ℚ)
  (sizes.getD i 0) * (1 - s) + (sizes.getD k 0) * s

/-- The color-curve evaluation of `update` (lines 981–985): as the size
curve but driven by the normalized age directly, over the color points. -/
def evalColorCurve (colors : List Colorf) (t : ℚ) : Colorf :=
  let s1 := t * ((colors.length : ℚ) - 1)
  let i : ℕ := (truncToZero s1).toNat
  let k : ℕ := if i = colors.length - 1 then i else i + 1
  let s := s1 - (i : ℚ)
  Colorf.add ((colors.getD i ⟨0,0,0,0⟩).smul (1 - s)) ((colors.getD k ⟨0,0,0,0⟩).smul s)

/-- The quad-index selection of `update` (lines 988–994). -/
def evalQuadIndex (numQuads : ℕ) (t : ℚ) (old : ℕ) : ℕ :=
  if 0 < numQuads then
    let s := t * (numQuads : ℚ)
    let i : ℕ := if 0 < s then (truncToZero s).toNat else 0
    if i < numQuads then i else numQuads - 1
  else old

/-- The full state of one `ParticleSystem` instance.  `mem` is the backing
array `pMem` (a total function store; only indices below `maxParticles`
are ever touched), `free` is `pFree - pMem`, and `head`/`tail` are
`pHead`/`pTail`.  The buffers are modelled as always allocated: the
constructor allocates them and only the destructor or `setBufferSize`
frees them, so `pMem == nullptr` is unreachable between public calls. -/
structure SysState where
  mem : ℕ → Particle
  free : ℕ
  head : Option ℕ
  tail : Option ℕ
  maxParticles : ℕ
  activeParticles : ℕ
  rng : RNG
  active : Bool
  insertMode : InsertMode
  emissionRate : ℚ
  emitCounter : ℚ
  position : Vec
  prevPosition : Vec
  areaSpreadDistribution : Distribution
  areaSpread : Vec
  lifetime : ℚ
  life : ℚ
  particleLifeMin : ℚ
  particleLifeMax : ℚ
  direction : ℚ
  spread : ℚ
  speedMin : ℚ
  speedMax : ℚ
  linearAccelerationMin : Vec
  linearAccelerationMax : Vec
  radialAccelerationMin : ℚ
  radialAccelerationMax : ℚ
  tangentialAccelerationMin : ℚ
  tangentialAccelerationMax : ℚ
  linearDampingMin : ℚ
  linearDampingMax : ℚ
  sizes : List ℚ
  sizeVariation : ℚ
  rotationMin : ℚ
  rotationMax : ℚ
  spinStart : ℚ
  spinEnd : ℚ
  spinVariation : ℚ
  offsetX : ℚ
  offsetY : ℚ
  colors : List Colorf
  numQuads : ℕ
  relativeRotation : Bool

/-- Point update of the function store at one index. -/
def setMem (mem : ℕ → Particle) (i : ℕ) (p : Particle) : ℕ → Particle :=
  fun j => if j = i then p else mem j

/-- `node->prev = v` at index `i`. -/
def setPrev (mem : ℕ → Particle) (i : ℕ) (v : Option ℕ) : ℕ → Particle :=
  setMem mem i { mem i with prev := v }

/-- `node->next = v` at index `i`. -/
def setNext (mem : ℕ → Particle) (i : ℕ) (v : Option ℕ) : ℕ → Particle :=
  setMem mem i { mem i with next := v }

/-- `ParticleSystem::isFull` (line 827). -/
def isFull (s : SysState) : Bool :=
  s.activeParticles = s.maxParticles

/-- `ParticleSystem::isEmpty` (line 822). -/
def isEmpty (s : SysState) : Bool :=
  s.activeParticles = 0

/-- `ParticleSystem::isActive` (line 807). -/
def isActive (s : SysState) : Bool :=
  s.active

/-- `ParticleSystem::isPaused` (line 812): `!active && life < lifetime`. -/
def isPaused (s : SysState) : Bool :=
  !s.active && decide (s.life < s.lifetime)

/-- `ParticleSystem::isStopped` (line 817): `!active && life >= lifetime`. -/
def isStopped (s : SysState) : Bool :=
  !s.active && decide (s.lifetime ≤ s.life)

/-- `ParticleSystem::initParticle` (lines 238–315): populate a fresh slot
from the configured ranges, consuming random draws in source order.  The
intrusive links `prev`/`next` of `old` are not written here (the insert
functions set them).  The initial size indexing of line 300 reads the
size array at `initSizeIndex`; a negative or too-large index is an
out-of-bounds read (undefined behaviour) in the source, modelled with a
default of `0`. -/
def initParticle (m : MathOps) (s : SysState) (t : ℚ) (old : Particle) :
    Particle × RNG :=
  let rng := s.rng
  -- Linearly interpolate between the previous and current emitter position.
  let pos := s.prevPosition.add ((s.position.sub s.prevPosition).smul t)
  let (lifeVal, rng) :=
    if s.particleLifeMin = s.particleLifeMax then (s.particleLifeMin, rng)
    else rng.random2 s.particleLifeMin s.particleLifeMax
  let (px, py, rng) :=
    match s.areaSpreadDistribution with
    | .uniform =>
        let (dx, rng) := rng.random2 (-s.areaSpread.x) s.areaSpread.x
        let (dy, rng) := rng.random2 (-s.areaSpread.y) s.areaSpread.y
        (pos.x + dx, pos.y + dy, rng)
    | .normal =>
        let (dx, rng) := rng.randomNormal s.areaSpread.x
        let (dy, rng) := rng.randomNormal s.areaSpread.y
        (pos.x + dx, pos.y + dy, rng)
    | .none => (pos.x, pos.y, rng)
  let (dir, rng) := rng.random2 (s.direction - s.spread / 2) (s.direction + s.spread / 2)
  let (speed, rng) := rng.random2 s.speedMin s.speedMax
  let vel := (Vec.mk (m.cosf dir) (m.sinf dir)).smul speed
  let (lax, rng) := rng.random2 s.linearAccelerationMin.x s.linearAccelerationMax.x
  let (lay, rng) := rng.random2 s.linearAccelerationMin.y s.linearAccelerationMax.y
  let (rad, rng) := rng.random2 s.radialAccelerationMin s.radialAccelerationMax
  let (tga, rng) := rng.random2 s.tangentialAccelerationMin s.tangentialAccelerationMax
  let (damp, rng) := rng.random2 s.linearDampingMin s.linearDampingMax
  let (szo, rng) := rng.random1 s.sizeVariation
  let (szi, rng) := rng.random1 s.sizeVariation
  let sizeIntervalSize := (1 - szi) - szo
  let sizeVal := s.sizes.getD (initSizeIndex szo s.sizes.length).toNat 0
  let (spinS, rng) := calcVariation rng s.spinStart s.spinEnd s.spinVariation
  let (spinE, rng) := calcVariation rng s.spinEnd s.spinStart s.spinVariation
  let (rot, rng) := rng.random2 s.rotationMin s.rotationMax
  let ang := rot + (if s.relativeRotation then m.atan2f vel.y vel.x else 0)
  ({ old with
      life := lifeVal, lifetime := lifeVal
      posX := px, posY := py
      originX := pos.x, originY := pos.y
      velX := vel.x, velY := vel.y
      linAccX := lax, linAccY := lay
      radialAcceleration := rad
      tangentialAcceleration := tga
      linearDamping := damp
      direction := dir
      sizeOffset := szo, sizeIntervalSize := sizeIntervalSize, size := sizeVal
      spinStart := spinS, spinEnd := spinE
      rotation := rot, angle := ang
      color := s.colors.getD 0 ⟨0, 0, 0, 0⟩
      quadIndex := 0 }, rng)

/-- `ParticleSystem::insertTop` (lines 317–331): append the node `i` after
the current tail.  A null `pTail` alongside a non-null `pHead` would
dereference null in the source; that branch is unreachable (excluded by
the pool invariant) and modelled as a no-op. -/
def insertTop (i : ℕ) (s : SysState) : SysState :=
  match s.head with
  | none =>
      let mem := setPrev s.mem i none
      let mem := setNext mem i none
      { s with mem := mem, head := some i, tail := some i }
  | some _ =>
      match s.tail with
      | some t0 =>
          let mem := setNext s.mem t0 (some i)
          let mem := setPrev mem i (some t0)
          let mem := setNext mem i none
          { s with mem := mem, tail := some i }
      | none => s

/-- `ParticleSystem::insertBottom` (lines 333–347): prepend the node `i`
before the current head.  The null-`pHead`-with-non-null-`pTail` branch is
unreachable, as in `insertTop`. -/
def insertBottom (i : ℕ) (s : SysState) : SysState :=
  match s.tail with
  | none =>
      let mem := setNext s.mem i none
      let mem := setPrev mem i none
      { s with mem := mem, head := some i, tail := some i }
  | some _ =>
      match s.head with
      | some h0 =>
          let mem := setPrev s.mem h0 (some i)
          let mem := setNext mem i (some h0)
          let mem := setPrev mem i none
          { s with mem := mem, head := some i }
      | none => s

/-- `ParticleSystem::insertRandom` (lines 349–376): draw
`pos = rng.rand() % (activeParticles + 1)`; `pos = activeParticles` means
insert before the head, otherwise splice the node `i` right after the
particle at physical slot `pos`. -/
def insertRandom (i : ℕ) (s : SysState) : SysState :=
  let (r, rng') := s.rng.randNat
  let s := { s with rng := rng' }
  let pos := r % (s.activeParticles + 1)
  if pos = s.activeParticles then
    let mem :=
      match s.head with
      | some h0 => setPrev s.mem h0 (some i)
      | none => s.mem
    let mem := setPrev mem i none
    let mem := setNext mem i s.head
    { s with mem := mem, head := some i }
  else
    let pB := (s.mem pos).next
    let mem := setNext s.mem pos (some i)
    let s :=
      match pB with
      | some b => { s with mem := setPrev mem b (some i) }
      | none => { s with mem := mem, tail := some i }
    let mem := setPrev s.mem i (some pos)
    let mem := setNext mem i pB
    { s with mem := mem }

/-- First half of `ParticleSystem::removeParticle` (lines 383–397):
remove the particle from the linked list, repairing the neighbours'
links and, at the endpoints, `pHead`/`pTail`; `pNext` is the pointer to
the next particle, null when `p` was the tail. -/
def unlinkParticle (p : ℕ) (s : SysState) : Option ℕ × SysState :=
  let s :=
    match (s.mem p).prev with
    | some q => { s with mem := setNext s.mem q (s.mem p).next }
    | none => { s with head := (s.mem p).next }
  let pNext : Option ℕ := (s.mem p).next
  let s :=
    match (s.mem p).next with
    | some b => { s with mem := setPrev s.mem b (s.mem p).prev }
    | none => { s with tail := (s.mem p).prev }
  (pNext, s)

/-- Second half of `ParticleSystem::removeParticle` (lines 399–420): the
(in memory) last particle is moved into the freed slot (skipped when it
is the removed particle itself), `pNext` is redirected when it pointed at
the moved slot, and the moved node's neighbours — or `pHead`/`pTail` at
the endpoints — are re-pointed at its new location. -/
def compactParticle (p : ℕ) (pNext : Option ℕ) (s : SysState) : Option ℕ × SysState :=
  let s := { s with free := s.free - 1 }
  let last := s.free
  if p = last then
    (pNext, { s with activeParticles := s.activeParticles - 1 })
  else
    let s := { s with mem := setMem s.mem p (s.mem last) }
    let pNext := if pNext = some last then some p else pNext
    let s :=
      match (s.mem p).prev with
      | some q => { s with mem := setNext s.mem q (some p) }
      | none => { s with head := some p }
    let s :=
      match (s.mem p).next with
      | some b => { s with mem := setPrev s.mem b (some p) }
      | none => { s with tail := some p }
    (pNext, { s with activeParticles := s.activeParticles - 1 })

/-- `ParticleSystem::removeParticle` (lines 378–421): unlink slot `p` from
the active list, then compact the pool by moving the last-allocated slot's
contents into `p`; returns the (possibly redirected) pointer to the next
particle. -/
def removeParticle (p : ℕ) (s : SysState) : Option ℕ × SysState :=
  let r := unlinkParticle p s
  compactParticle p r.1 r.2

/-- `ParticleSystem::addParticle` (lines 212–236): take the slot at the
free boundary, initialize it, link it according to the insert mode, and
bump the active count.  No-op when the pool is full. -/
def addParticle (m : MathOps) (t : ℚ) (s : SysState) : SysState :=
  if isFull s then s
  else
    let i := s.free
    let r := initParticle m s t (s.mem i)
    let s := { s with free := s.free + 1, mem := setMem s.mem i r.1, rng := r.2 }
    let s :=
      match s.insertMode with
      | .top => insertTop i s
      | .bottom => insertBottom i s
      | .random => insertRandom i s
    { s with activeParticles := s.activeParticles + 1 }

/-- `ParticleSystem::start` (line 766). -/
def start (s : SysState) : SysState :=
  { s with active := true }

/-- `ParticleSystem::stop` (lines 771–776). -/
def stop (s : SysState) : SysState :=
  { s with active := false, life := s.lifetime, emitCounter := 0 }

/-- `ParticleSystem::pause` (lines 778–781). -/
def pause (s : SysState) : SysState :=
  { s with active := false }

/-- `ParticleSystem::reset` (lines 783–794): rewind the free boundary,
clear the list heads, zero the active count and the emission accumulator,
and restore the emitter's remaining life to the full configured lifetime.
(The `pMem == nullptr` early-out is unreachable in the model, which keeps
the buffers always allocated.) -/
def reset (s : SysState) : SysState :=
  { s with free := 0, head := none, tail := none, activeParticles := 0
           life := s.lifetime, emitCounter := 0 }

/-- Helper for `emit`'s `while (num--)` loop. -/
def emitN (m : MathOps) : ℕ → SysState → SysState
  | 0, s => s
  | n + 1, s => emitN m n (addParticle m 1 s)

/-- `ParticleSystem::emit` (lines 796–805): no-op when not active,
otherwise spawn `min num (maxParticles - activeParticles)` particles with
spawn interpolant `1.0f`. -/
def emit (num : ℕ) (m : MathOps) (s : SysState) : SysState :=
  if !s.active then s
  else emitN m (min num (s.maxParticles - s.activeParticles)) s

/-- `ParticleSystem::setEmissionRate` (lines 443–448): negative rates are
rejected with a `love::Exception`. -/
def setEmissionRate (rate : ℚ) (s : SysState) : Except String SysState :=
  if rate < 0 then .error "Invalid emission rate"
  else .ok { s with emissionRate := rate }

/-- `ParticleSystem::setParticleLifetime` (lines 465–472): `max == 0`
makes the maximum equal to the minimum. -/
def setParticleLifetime (pmin pmax : ℚ) (s : SysState) : SysState :=
  let s := { s with particleLifeMin := pmin }
  if pmax = 0 then { s with particleLifeMax := pmin }
  else { s with particleLifeMax := pmax }

/-- `ParticleSystem::setEmitterLifetime` (lines 455–458). -/
def setEmitterLifetime (l : ℚ) (s : SysState) : SysState :=
  { s with life := l, lifetime := l }

/-- `ParticleSystem::setSizeVariation` (lines 629–632). -/
def setSizeVariation (variation : ℚ) (s : SysState) : SysState :=
  { s with sizeVariation := variation }

/-- Modelled from the spec: `love::Vector::normalize` (the `Vector` header
is not under `src/`); "radial = normalized vector from origin to position".
The squared length goes through the external `sqrtf`; a positive length
divides both components by it, otherwise the vector is left as is. -/
def Vec.normalize (m : MathOps) (v : Vec) : Vec :=
  let len := m.sqrtf (v.x * v.x + v.y * v.y)
  if 0 < len then ⟨v.x / len, v.y / len⟩ else v

/-- The per-particle integration step of `update` (lines 920–997), the
`else` branch run when the particle survives the tick: radial/tangential/
linear acceleration, damping, position, rotation and the curve-driven
size/color/quad updates.  Only non-link fields of the slot are written;
the returned pointer is the unchanged `p->next`.  (The damping divisor
`1 + linearDamping * dt` and the age divisor `lifetime` are nonzero for
every particle that survives a tick with positive `dt`; `ℚ` division by
zero yields `0` where the source float division would yield an infinity.) -/
def integrate (m : MathOps) (dt : ℚ) (numQuads : ℕ) (sizes : List ℚ)
    (colors : List Colorf) (relativeRotation : Bool) (p : Particle) : Particle :=
  let ppos := Vec.mk p.posX p.posY
  -- Get vector from particle center to particle.
  let radial := Vec.normalize m (ppos.sub ⟨p.originX, p.originY⟩)
  let tangential := radial
  let radial := radial.smul p.radialAcceleration
  let tangential := Vec.mk (-tangential.y) tangential.x
  let tangential := tangential.smul p.tangentialAcceleration
  -- Update velocity, apply damping, modify position.
  let vel := (Vec.mk p.velX p.velY).add
    (((radial.add tangential).add ⟨p.linAccX, p.linAccY⟩).smul dt)
  let vel := vel.smul (1 / (1 + p.linearDamping * dt))
  let ppos := ppos.add (vel.smul dt)
  let t := 1 - p.life / p.lifetime
  let rot := p.rotation + (p.spinStart * (1 - t) + p.spinEnd * t) * dt
  let ang := rot + (if relativeRotation then m.atan2f vel.y vel.x else 0)
  { p with
      posX := ppos.x, posY := ppos.y
      velX := vel.x, velY := vel.y
      rotation := rot, angle := ang
      size := evalSizeCurve sizes p.sizeOffset p.sizeIntervalSize t
      color := evalColorCurve colors t
      quadIndex := evalQuadIndex numQuads t p.quadIndex }

/-- The particle-traversal loop of `update` (lines 910–999): decrement the
lifespan, remove the particle when it expired (continuing at the pointer
`removeParticle` returns), otherwise integrate and move to `p->next`.
The loop is structured on explicit fuel; `updateLoop` is always entered
with fuel `activeParticles`, which bounds the length of the active list
under the pool invariant proved below, so the fuel never runs out before
the null pointer is reached. -/
def updateLoop (m : MathOps) (dt : ℚ) : ℕ → Option ℕ → SysState → SysState
  | 0, _, s => s
  | _ + 1, none, s => s
  | fuel + 1, some p, s =>
    let s := { s with mem := setMem s.mem p { s.mem p with life := (s.mem p).life - dt } }
    if (s.mem p).life ≤ 0 then
      let r := removeParticle p s
      updateLoop m dt fuel r.1 r.2
    else
      let p' := integrate m dt s.numQuads s.sizes s.colors s.relativeRotation (s.mem p)
      updateLoop m dt fuel (p'.next) { s with mem := setMem s.mem p p' }

/-- The emission while-loop of `update` (lines 1007–1011): while the
accumulator strictly exceeds the inter-spawn interval, spawn one particle
with the sub-frame interpolant `1 - (emitCounter - rate) / total` and
subtract the interval.  Explicit fuel; `emitFuel` below is sufficient for
the positive rates reachable through `setEmissionRate`. -/
def emitLoop (m : MathOps) (rate total : ℚ) : ℕ → SysState → SysState
  | 0, s => s
  | fuel + 1, s =>
    if rate < s.emitCounter then
      let s := addParticle m (1 - (s.emitCounter - rate) / total) s
      emitLoop m rate total fuel { s with emitCounter := s.emitCounter - rate }
    else s

/-- Fuel bound for `emitLoop`: the loop body keeps `emitCounter > 0` and
subtracts `rate` each iteration, so for `rate > 0` at most
`⌈emitCounter / rate⌉` iterations run.  (For `rate ≤ 0` the source loop
would not terminate whenever it is entered at all; a negative rate is
unreachable, `setEmissionRate` rejects it.) -/
def emitFuel (emitCounter rate : ℚ) : ℕ :=
  if 0 < rate then (⌈emitCounter / rate⌉).toNat + 1 else 0

/-- The emission and emitter-lifetime part of `update` (lines 1002–1019),
run only when `active`: accumulate `dt`, run the spawn loop against the
interval `rate = 1.0f / emissionRate` (for a zero rate the float division
yields positive infinity, so the strict comparison `emitCounter > rate`
fails and the loop body never runs — modelled by skipping the loop), then
count down the emitter's own life and `stop()` once a finite lifetime is
exhausted. -/
def emissionPhase (m : MathOps) (dt : ℚ) (s : SysState) : SysState :=
  if s.active then
    let s := { s with emitCounter := s.emitCounter + dt }
    let s : SysState :=
      if s.emissionRate = 0 then s
      else
        let rate := 1 / s.emissionRate
        let total := s.emitCounter - rate
        emitLoop m rate total (emitFuel s.emitCounter rate) s
    let s : SysState := { s with life := s.life - dt }
    -- `if (lifetime != -1 && life < 0) stop();`
    if s.lifetime = -1 then s
    else if s.life < 0 then stop s
    else s
  else s

/-- `ParticleSystem::update` (lines 904–1022): no-op for `dt == 0`
(the `pMem == nullptr` early-out is unreachable in the model); otherwise
traverse and integrate all active particles, emit, and sync the previous
emitter position. -/
def update (m : MathOps) (dt : ℚ) (s : SysState) : SysState :=
  if dt = 0 then s
  else
    let s := updateLoop m dt s.activeParticles s.head s
    let s := emissionPhase m dt s
    { s with prevPosition := s.position }

/-! ### The active list as a doubly-linked segment

`dseg mem pr L nx` says the slots listed in `L` are linked consecutively
through their `next` fields, their `prev` fields chain back the same way,
the first node's `prev` is `pr` and the last node's `next` is `nx`. -/

/-- The pointer entering a segment from the left: its first node, or the
continuation `nx` when the segment is empty. -/
def nextOf (rest : List ℕ) (nx : Option ℕ) : Option ℕ :=
  match rest with
  | [] => nx
  | j :: _ => some j

/-- The pointer entering a segment from the right: its last node, or the
continuation `pr` when the segment is empty. -/
def backOf (pr : Option ℕ) (A : List ℕ) : Option ℕ :=
  match A.getLast? with
  | none => pr
  | some a => some a

/-- Doubly-linked list segment over the store `mem`. -/
def dseg (mem : ℕ → Particle) : Option ℕ → List ℕ → Option ℕ → Prop
  | _, [], _ => True
  | pr, i :: rest, nx =>
      (mem i).prev = pr ∧ (mem i).next = nextOf rest nx ∧ dseg mem (some i) rest nx

/-! ### The pool invariant -/

/-- The shape of the active list: the slots of `L` form a doubly-linked
segment closed at both ends, entered at `hd` and exited at `tl`. -/
def ListShape (mem : ℕ → Particle) (hd tl : Option ℕ) (L : List ℕ) : Prop :=
  dseg mem none L none ∧ hd = nextOf L none ∧ tl = backOf none L

/-- Tail-pointer health.  `insertRandom`'s insert-before-head branch
(source lines 354–364) updates `pHead` but never `pTail`, so with the
random insert mode the tail pointer can lag behind (stuck at null after an
insertion into an empty pool) until a later removal or splice at the end
of the list heals it; nothing reads `pTail` on those paths.  With the top
and bottom insert modes the tail pointer always tracks the last node. -/
def TailOk (s : SysState) (L : List ℕ) : Prop :=
  s.tail = backOf none L ∨ (s.insertMode = .random ∧ s.tail = none)

/-- The pool invariant (weak form, preserved by every reachable step):
the active list `L` is a doubly-linked segment entered from `pHead`, the
tail pointer is healthy in the sense of `TailOk`, the slots of `L` are
pairwise distinct and exactly those below the free boundary, the active
count mirrors the boundary, and the boundary stays within the capacity. -/
def WInv (s : SysState) (L : List ℕ) : Prop :=
  dseg s.mem none L none ∧
  s.head = nextOf L none ∧
  TailOk s L ∧
  L.Nodup ∧
  (∀ i ∈ L, i < s.free) ∧
  L.length = s.free ∧
  s.activeParticles = s.free ∧
  s.free ≤ s.maxParticles

/-- The pool invariant with an exact tail pointer. -/
def FullInv (s : SysState) (L : List ℕ) : Prop :=
  ListShape s.mem s.head s.tail L ∧
  L.Nodup ∧
  (∀ i ∈ L, i < s.free) ∧
  L.length = s.free ∧
  s.activeParticles = s.free ∧
  s.free ≤ s.maxParticles

/-- Some list satisfies the weak pool invariant. -/
def Inv (s : SysState) : Prop := ∃ L, WInv s L

/-- The renaming performed by the compaction move: the node that lived in
the last allocated slot now lives in the freed slot `p`; all other nodes
keep their places. -/
def relabel (last p j : ℕ) : ℕ :=
  if j = last then p else j

/-! ### Frame lemmas: the pool operations touch no emitter state -/

/-- Fields of the emitter/configuration untouched by every pool operation
(the emission accumulator is tracked separately, the spawn loop changes
it). -/
def cfgFrame (s s' : SysState) : Prop :=
  s'.active = s.active ∧ s'.life = s.life ∧ s'.lifetime = s.lifetime ∧
  s'.emissionRate = s.emissionRate ∧ s'.position = s.position ∧
  s'.prevPosition = s.prevPosition ∧ s'.maxParticles = s.maxParticles ∧
  s'.insertMode = s.insertMode

/-- `cfgFrame` plus an unchanged emission accumulator. -/
def poolFrame (s s' : SysState) : Prop :=
  cfgFrame s s' ∧ s'.emitCounter = s.emitCounter

/-! ### Reachability -/

/-- States reachable from a freshly constructed system (the constructor
calls `setBufferSize`, which ends in `reset`, so the pool starts drained;
every configuration field is arbitrary) by any sequence of the public
mutating operations. -/
inductive Reach : SysState → Prop
  | init (s : SysState) : s.free = 0 → s.head = none → s.tail = none →
      s.activeParticles = 0 → Reach s
  | emit (n : ℕ) (m : MathOps) {s : SysState} : Reach s → Reach (emit n m s)
  | update (m : MathOps) (dt : ℚ) {s : SysState} : Reach s → Reach (update m dt s)
  | start {s : SysState} : Reach s → Reach (start s)
  | stop {s : SysState} : Reach s → Reach (stop s)
  | pause {s : SysState} : Reach s → Reach (pause s)
  | reset {s : SysState} : Reach s → Reach (reset s)

/-- The particle-lifetime configuration is untouched by the pool
operations. -/
def lifeCfgFrame (s s' : SysState) : Prop :=
  s'.particleLifeMin = s.particleLifeMin ∧ s'.particleLifeMax = s.particleLifeMax

/-- Invariant for the steady state of the emission-count scenario: a valid
pool of `c` particles all still holding at least `B` seconds of life, the
accumulator resting at `1/10`, and the scenario's configuration (rate 10,
infinite emitter lifetime, particle lifetime 1000, capacity 16). -/
def C3Mid (B : ℚ) (c : ℕ) (s : SysState) : Prop :=
  (∃ L, WInv s L ∧ ∀ i ∈ L, B ≤ (s.mem i).life) ∧
  s.activeParticles = c ∧ s.emitCounter = 1/10 ∧ s.active = true ∧
  s.emissionRate = 10 ∧ s.lifetime = -1 ∧
  s.particleLifeMin = 1000 ∧ s.particleLifeMax = 1000 ∧ s.maxParticles = 16

/-! ### Concrete fixtures for the witnesses and counterexamples -/

/-- Trivial external math: every transcendental helper returns `0`. -/
def zeroMath : MathOps := ⟨fun _ => 0, fun _ => 0, fun _ _ => 0, fun _ => 0⟩

/-- A random source whose draws are all `0`. -/
def zeroRNG : RNG := ⟨fun _ => 0, fun _ => 0, 0, 0⟩

/-- A freshly constructed system with capacity 16 and the constructor's
default configuration (`active = true`, insert mode top, rate 0,
`lifetime = -1`, one size and one color control point). -/
def baseState : SysState :=
  { mem := fun _ => Particle.blank, free := 0, head := none, tail := none
    maxParticles := 16, activeParticles := 0, rng := zeroRNG
    active := true, insertMode := .top, emissionRate := 0, emitCounter := 0
    position := ⟨0, 0⟩, prevPosition := ⟨0, 0⟩
    areaSpreadDistribution := .none, areaSpread := ⟨0, 0⟩
    lifetime := -1, life := 0, particleLifeMin := 0, particleLifeMax := 0
    direction := 0, spread := 0, speedMin := 0, speedMax := 0
    linearAccelerationMin := ⟨0, 0⟩, linearAccelerationMax := ⟨0, 0⟩
    radialAccelerationMin := 0, radialAccelerationMax := 0
    tangentialAccelerationMin := 0, tangentialAccelerationMax := 0
    linearDampingMin := 0, linearDampingMax := 0
    sizes := [1], sizeVariation := 0
    rotationMin := 0, rotationMax := 0
    spinStart := 0, spinEnd := 0, spinVariation := 0
    offsetX := 0, offsetY := 0
    colors := [⟨1, 1, 1, 1⟩], numQuads := 0, relativeRotation := false }

/-- Iterated fixed-timestep simulation. -/
def iterUpdate (m : MathOps) (dt : ℚ) : ℕ → SysState → SysState
  | 0, s => s
  | n + 1, s => iterUpdate m dt n (update m dt s)

/-- The spec's emission-count scenario: rate 10, particle lifetime 1000
(no deaths during the test), infinite emitter lifetime, `dt = 1/10`,
total time 1 s. -/
def c3State : SysState :=
  setParticleLifetime 1000 0 { baseState with emissionRate := 10 }

/-- A state with the emitter active mid-life. -/
def c4State : SysState :=
  { baseState with active := true, life := 3, lifetime := 10 }

/-- An active emitter with infinite configured lifetime. -/
def c5State : SysState :=
  { baseState with active := true, life := 5, lifetime := -1 }

/-- Draw stream for the size-window counterexample: the eighth uniform
draw (the `sizeOffset` draw of `initParticle` for this configuration) is
`1/2`, every other draw `0`. -/
def c7RNG : RNG := ⟨fun i => if i = 7 then 1/2 else 0, fun _ => 0, 0, 0⟩

/-- Size variation 1 with a two-point size curve. -/
def c7State : SysState :=
  { baseState with sizeVariation := 1, sizes := [1, 2], rng := c7RNG }

/-- Draw stream for the init-size-index counterexample: the `sizeOffset`
draw is `99/100`. -/
def c9RNG : RNG := ⟨fun i => if i = 7 then 99/100 else 0, fun _ => 0, 0, 0⟩

/-- Size variation 3 with a two-point size curve. -/
def c9State : SysState :=
  { baseState with sizeVariation := 3, sizes := [1, 2], rng := c9RNG }

/-- A concrete three-particle pool `0 ↔ 1 ↔ 2` for exercising removal. -/
def w2mem : ℕ → Particle := fun j =>
  if j = 0 then { Particle.blank with prev := none, next := some 1 }
  else if j = 1 then { Particle.blank with prev := some 0, next := some 2 }
  else if j = 2 then { Particle.blank with prev := some 1, next := none }
  else Particle.blank

/-- A system whose pool holds the three linked particles of `w2mem`. -/
def w2state : SysState :=
  { baseState with
      mem := w2mem, free := 3, head := some 0, tail := some 2
      activeParticles := 3 }

@[simp]
theorem dseg_nil {mem : ℕ → Particle} {pr nx : Option ℕ} : dseg mem pr [] nx := by
  simp [dseg]

@[simp]
theorem dseg_cons {mem : ℕ → Particle} {pr nx : Option ℕ} {i : ℕ} {rest : List ℕ} :
    dseg mem pr (i :: rest) nx ↔
      (mem i).prev = pr ∧ (mem i).next = nextOf rest nx ∧ dseg mem (some i) rest nx := by
  simp [dseg]

@[simp]
theorem nextOf_nil {nx : Option ℕ} : nextOf [] nx = nx := rfl

@[simp]
theorem nextOf_cons {j : ℕ} {rest : List ℕ} {nx : Option ℕ} :
    nextOf (j :: rest) nx = some j := rfl

@[simp]
theorem backOf_nil {pr : Option ℕ} : backOf pr [] = pr := rfl

theorem backOf_cons {pr : Option ℕ} {i : ℕ} {A : List ℕ} :
    backOf pr (i :: A) = backOf (some i) A := by
  cases A with
  | nil => rfl
  | cons j A' =>
    unfold backOf
    rw [List.getLast?_cons_cons]
    cases hg : (j :: A').getLast? with
    | none => exact absurd (List.getLast?_eq_none_iff.mp hg) (by simp)
    | some a => rfl

theorem nextOf_append {A B : List ℕ} {nx : Option ℕ} :
    nextOf (A ++ B) nx = nextOf A (nextOf B nx) := by
  cases A with
  | nil => simp
  | cons a A' => simp [nextOf]

theorem nextOf_ne_nil {A : List ℕ} (h : A ≠ []) (nx nx' : Option ℕ) :
    nextOf A nx = nextOf A nx' := by
  cases A with
  | nil => exact absurd rfl h
  | cons a A' => rfl

theorem backOf_append {pr : Option ℕ} {A B : List ℕ} :
    backOf pr (A ++ B) = backOf (backOf pr A) B := by
  induction A generalizing pr with
  | nil => simp
  | cons a A' ih => rw [List.cons_append, backOf_cons, backOf_cons, ih]

theorem backOf_ne_nil {A : List ℕ} (h : A ≠ []) (pr pr' : Option ℕ) :
    backOf pr A = backOf pr' A := by
  cases A with
  | nil => exact absurd rfl h
  | cons a A' => rw [backOf_cons, backOf_cons]

theorem backOf_mem {A : List ℕ} {q : ℕ} (h : backOf none A = some q) : q ∈ A := by
  unfold backOf at h
  cases hA : A.getLast? with
  | none => rw [hA] at h; exact Option.noConfusion h
  | some a =>
    rw [hA] at h
    cases h
    exact List.mem_of_mem_getLast? (by rw [hA]; rfl)

theorem dseg_append {mem : ℕ → Particle} {pr nx : Option ℕ} {A B : List ℕ} :
    dseg mem pr (A ++ B) nx ↔
      dseg mem pr A (nextOf B nx) ∧ dseg mem (backOf pr A) B nx := by
  induction A generalizing pr with
  | nil => simp
  | cons a A' ih =>
    simp only [List.cons_append, dseg_cons, backOf_cons, ih, nextOf_append]
    tauto

/-- A store change that leaves the link fields of every node of a segment
unchanged preserves the segment. -/
theorem dseg_congr {mem mem' : ℕ → Particle} {pr nx : Option ℕ} {L : List ℕ}
    (hc : ∀ n ∈ L, (mem' n).prev = (mem n).prev ∧ (mem' n).next = (mem n).next)
    (h : dseg mem pr L nx) : dseg mem' pr L nx := by
  revert hc h
  induction L generalizing pr with
  | nil => intro _ _; simp
  | cons a L' ih =>
    intro hc h
    simp only [dseg_cons] at h ⊢
    obtain ⟨h1, h2, h3⟩ := h
    obtain ⟨c1, c2⟩ := hc a (by simp)
    exact ⟨c1.trans h1, c2.trans h2, ih (fun n hn => hc n (by simp [hn])) h3⟩

/-- Retarget the right end of a segment: if only its last node's `next`
field changed, to the new continuation `nx'`, the segment persists. -/
theorem dseg_retarget_last {mem mem' : ℕ → Particle} {pr nx nx' : Option ℕ}
    {A : List ℕ}
    (h : dseg mem pr A nx) (hnd : A.Nodup)
    (c1 : ∀ n ∈ A, (mem' n).prev = (mem n).prev)
    (c2 : ∀ n ∈ A, some n ≠ backOf none A → (mem' n).next = (mem n).next)
    (c3 : ∀ q, backOf none A = some q → (mem' q).next = nx') :
    dseg mem' pr A nx' := by
  revert h hnd c1 c2 c3
  induction A generalizing pr with
  | nil => intro _ _ _ _ _; simp
  | cons a A' ih =>
    intro h hnd c1 c2 c3
    simp only [dseg_cons] at h ⊢
    obtain ⟨h1, h2, h3⟩ := h
    cases A' with
    | nil =>
      exact ⟨(c1 a (by simp)).trans h1, c3 a (by simp [backOf]), by simp⟩
    | cons b A'' =>
      have hback : backOf none (a :: b :: A'') = backOf none (b :: A'') := by
        rw [backOf_cons]; exact backOf_ne_nil (by simp) _ _
      have hanotin : a ∉ b :: A'' := (List.nodup_cons.mp hnd).1
      have hnea : some a ≠ backOf none (a :: b :: A'') := by
        rw [hback]
        intro hq
        exact hanotin (backOf_mem hq.symm)
      refine ⟨(c1 a (by simp)).trans h1, (c2 a (by simp) hnea).trans h2, ?_⟩
      exact ih h3 (List.nodup_cons.mp hnd).2
        (fun n hn => c1 n (by simp [hn]))
        (fun n hn hne => c2 n (by simp [hn]) (by rw [hback]; exact hne))
        (fun q hq => c3 q (by rw [hback]; exact hq))

/-- Retarget the left end of a segment: if only its first node's `prev`
field changed, to the new predecessor `pr'`, the segment persists. -/
theorem dseg_retarget_head {mem mem' : ℕ → Particle} {pr pr' nx : Option ℕ}
    {B : List ℕ}
    (h : dseg mem pr B nx) (hnd : B.Nodup)
    (c1 : ∀ n ∈ B, (mem' n).next = (mem n).next)
    (c2 : ∀ n ∈ B, some n ≠ nextOf B none → (mem' n).prev = (mem n).prev)
    (c3 : ∀ b, nextOf B none = some b → (mem' b).prev = pr') :
    dseg mem' pr' B nx := by
  revert h hnd c1 c2 c3
  induction B generalizing pr pr' with
  | nil => intro _ _ _ _ _; simp
  | cons b B' ih =>
    intro h hnd c1 c2 c3
    simp only [dseg_cons] at h ⊢
    obtain ⟨h1, h2, h3⟩ := h
    have hbnotin : b ∉ B' := (List.nodup_cons.mp hnd).1
    refine ⟨c3 b rfl, (c1 b (by simp)).trans h2, ?_⟩
    refine ih h3 (List.nodup_cons.mp hnd).2
      (fun n hn => c1 n (by simp [hn]))
      (fun n hn _ => c2 n (by simp [hn]) ?_)
      (fun b₂ hb₂ => ?_)
    · intro hc
      cases hc
      exact hbnotin hn
    · cases B' with
      | nil => exact Option.noConfusion hb₂
      | cons c B'' =>
        cases hb₂
        have hcprev : (mem b₂).prev = some b := h3.1
        have : (mem' b₂).prev = (mem b₂).prev := by
          refine c2 b₂ (by simp) ?_
          intro hc
          cases hc
          exact hbnotin (by simp)
        exact this.trans hcprev

/-! ### Evaluation of the store updates -/

@[simp]
theorem setMem_same {mem : ℕ → Particle} {i : ℕ} {p : Particle} :
    setMem mem i p i = p := by
  simp [setMem]

@[simp]
theorem setMem_other {mem : ℕ → Particle} {i j : ℕ} {p : Particle} (h : j ≠ i) :
    setMem mem i p j = mem j := by
  simp [setMem, h]

@[simp]
theorem setPrev_same {mem : ℕ → Particle} {i : ℕ} {v : Option ℕ} :
    setPrev mem i v i = { mem i with prev := v } := by
  simp [setPrev]

@[simp]
theorem setPrev_other {mem : ℕ → Particle} {i j : ℕ} {v : Option ℕ} (h : j ≠ i) :
    setPrev mem i v j = mem j := by
  simp [setPrev, h]

@[simp]
theorem setNext_same {mem : ℕ → Particle} {i : ℕ} {v : Option ℕ} :
    setNext mem i v i = { mem i with next := v } := by
  simp [setNext]

@[simp]
theorem setNext_other {mem : ℕ → Particle} {i j : ℕ} {v : Option ℕ} (h : j ≠ i) :
    setNext mem i v j = mem j := by
  simp [setNext, h]

theorem payload_setPrev {mem : ℕ → Particle} {i j : ℕ} {v : Option ℕ} :
    (setPrev mem i v j).payload = (mem j).payload := by
  by_cases h : j = i
  · subst h; simp [Particle.payload]
  · simp [h]

theorem payload_setNext {mem : ℕ → Particle} {i j : ℕ} {v : Option ℕ} :
    (setNext mem i v j).payload = (mem j).payload := by
  by_cases h : j = i
  · subst h; simp [Particle.payload]
  · simp [h]

theorem FullInv.toWInv {s : SysState} {L : List ℕ} (h : FullInv s L) : WInv s L :=
  ⟨h.1.1, h.1.2.1, Or.inl h.1.2.2, h.2.1, h.2.2.1, h.2.2.2.1, h.2.2.2.2.1, h.2.2.2.2.2⟩

theorem backOf_eq_none {pr : Option ℕ} {A : List ℕ} (h : backOf pr A = none) :
    A = [] ∧ pr = none := by
  unfold backOf at h
  cases hA : A.getLast? with
  | none => rw [hA] at h; exact ⟨List.getLast?_eq_none_iff.mp hA, h⟩
  | some a => rw [hA] at h; exact Option.noConfusion h

/-! ### Insertion lemmas -/

/-- `insertTop` appends the fresh node `i` at the end of the active list. -/
theorem insertTop_spec {s : SysState} {L : List ℕ} {i : ℕ}
    (hseg : dseg s.mem none L none) (hhd : s.head = nextOf L none)
    (htl : s.tail = backOf none L) (hnd : L.Nodup) (hi : i ∉ L) :
    dseg (insertTop i s).mem none (L ++ [i]) none ∧
    (insertTop i s).head = nextOf (L ++ [i]) none ∧
    (insertTop i s).tail = backOf none (L ++ [i]) := by
  cases hh : s.head with
  | none =>
    have hL : L = [] := by
      cases L with
      | nil => rfl
      | cons a L' => rw [hh] at hhd; exact Option.noConfusion hhd
    subst hL
    simp only [insertTop, hh, List.nil_append]
    refine ⟨?_, rfl, ?_⟩
    · simp
    · rfl
  | some h0 =>
    have hLne : L ≠ [] := by
      intro h
      subst h
      rw [hh] at hhd
      exact Option.noConfusion hhd
    obtain ⟨t0, ht⟩ : ∃ t0, s.tail = some t0 := by
      cases ht : s.tail with
      | none =>
        rw [ht] at htl
        exact absurd (backOf_eq_none htl.symm).1 hLne
      | some t0 => exact ⟨t0, rfl⟩
    have hbt : backOf none L = some t0 := by rw [← htl, ht]
    have ht0L : t0 ∈ L := backOf_mem hbt
    have hit0 : i ≠ t0 := fun h => hi (h ▸ ht0L)
    simp only [insertTop, hh, ht]
    refine ⟨?_, ?_, ?_⟩
    · rw [dseg_append]
      constructor
      · refine dseg_retarget_last hseg hnd ?_ ?_ ?_
        · intro n hn
          have hni : n ≠ i := fun h => hi (h ▸ hn)
          by_cases hnt : n = t0
          · subst hnt
            simp [setNext_other hni, setPrev_other hni]
          · simp [setNext_other hni, setPrev_other hni, setNext_other hnt]
        · intro n hn hne
          have hni : n ≠ i := fun h => hi (h ▸ hn)
          have hnt : n ≠ t0 := by
            intro h
            exact hne (by rw [h, hbt])
          simp [setNext_other hni, setPrev_other hni, setNext_other hnt]
        · intro q hq
          rw [hbt] at hq
          cases hq
          simp [setNext_other (Ne.symm hit0), setPrev_other (Ne.symm hit0)]
      · rw [hbt]
        simp [setNext_other hit0]
    · rw [nextOf_append, nextOf_ne_nil hLne (nextOf [i] none) none]
      exact hh ▸ hhd
    · rw [backOf_append, hbt, backOf_cons]
      rfl

/-- `insertBottom` prepends the fresh node `i` before the head. -/
theorem insertBottom_spec {s : SysState} {L : List ℕ} {i : ℕ}
    (hseg : dseg s.mem none L none) (hhd : s.head = nextOf L none)
    (htl : s.tail = backOf none L) (hnd : L.Nodup) (hi : i ∉ L) :
    dseg (insertBottom i s).mem none (i :: L) none ∧
    (insertBottom i s).head = nextOf (i :: L) none ∧
    (insertBottom i s).tail = backOf none (i :: L) := by
  cases ht : s.tail with
  | none =>
    have hL : L = [] := (backOf_eq_none (ht ▸ htl.symm)).1
    subst hL
    simp only [insertBottom, ht]
    exact ⟨by simp, rfl, rfl⟩
  | some t0 =>
    have hLne : L ≠ [] := by
      intro h
      subst h
      rw [ht] at htl
      exact Option.noConfusion htl
    obtain ⟨h0, hh⟩ : ∃ h0, s.head = some h0 := by
      cases hh : s.head with
      | none =>
        rw [hh] at hhd
        cases L with
        | nil => exact absurd rfl hLne
        | cons a L' => exact Option.noConfusion hhd
      | some h0 => exact ⟨h0, rfl⟩
    have hnh : nextOf L none = some h0 := by rw [← hhd, hh]
    have hh0L : h0 ∈ L := by
      cases L with
      | nil => exact absurd rfl hLne
      | cons a L' => cases hnh; simp
    have hih0 : i ≠ h0 := fun h => hi (h ▸ hh0L)
    simp only [insertBottom, ht, hh]
    refine ⟨?_, rfl, ?_⟩
    · rw [dseg_cons]
      refine ⟨by simp, by rw [nextOf_ne_nil hLne none, hnh]; simp, ?_⟩
      refine dseg_retarget_head hseg hnd ?_ ?_ ?_
      · intro n hn
        have hni : n ≠ i := fun h => hi (h ▸ hn)
        by_cases hnh0 : n = h0
        · subst hnh0
          simp [setPrev_other hni, setNext_other hni]
        · simp [setPrev_other hni, setNext_other hni, setPrev_other hnh0]
      · intro n hn hne
        have hni : n ≠ i := fun h => hi (h ▸ hn)
        have hnh0 : n ≠ h0 := by
          intro h
          exact hne (by rw [h, hnh])
        simp [setPrev_other hni, setNext_other hni, setPrev_other hnh0]
      · intro b hb
        rw [hnh] at hb
        cases hb
        simp [setPrev_other (Ne.symm hih0), setNext_other (Ne.symm hih0)]
    · rw [backOf_cons, backOf_ne_nil hLne (some i) none]
      exact ht ▸ htl

/-- `insertRandom` splices the fresh node `i` somewhere into the active
list: before the head, or right after an existing node.  The tail pointer
is only healthy in the `TailOk` sense (the insert-before-head branch never
writes `pTail`). -/
theorem insertRandom_spec {s : SysState} {L : List ℕ} {i : ℕ}
    (hseg : dseg s.mem none L none) (hhd : s.head = nextOf L none)
    (htl : TailOk s L) (hnd : L.Nodup) (hi : i ∉ L)
    (hmode : s.insertMode = .random)
    (hcnt : ∀ j < s.activeParticles, j ∈ L) :
    ∃ A B, L = A ++ B ∧
      dseg (insertRandom i s).mem none (A ++ i :: B) none ∧
      (insertRandom i s).head = nextOf (A ++ i :: B) none ∧
      TailOk (insertRandom i s) (A ++ i :: B) := by
  by_cases hpos : s.rng.n s.rng.ni % (s.activeParticles + 1) = s.activeParticles
  · -- insert before the head; `pTail` is never written
    refine ⟨[], L, by simp, ?_⟩
    simp only [insertRandom, RNG.randNat, hpos, if_pos, List.nil_append]
    refine ⟨?_, rfl, ?_⟩
    · rw [dseg_cons]
      refine ⟨?_, ?_, ?_⟩
      · cases hh : s.head with
        | none => simp
        | some h0 =>
          have hh0L : h0 ∈ L := by
            cases L with
            | nil => rw [hh] at hhd; exact Option.noConfusion hhd
            | cons a L' => rw [hh] at hhd; cases hhd; simp
          have hih0 : i ≠ h0 := fun h => hi (h ▸ hh0L)
          simp [setPrev_other hih0]
      · cases hh : s.head with
        | none => simp [← hhd, hh]
        | some h0 =>
          have hh0L : h0 ∈ L := by
            cases L with
            | nil => rw [hh] at hhd; exact Option.noConfusion hhd
            | cons a L' => rw [hh] at hhd; cases hhd; simp
          have hih0 : i ≠ h0 := fun h => hi (h ▸ hh0L)
          simp [← hhd, hh, setPrev_other hih0]
      · cases hh : s.head with
        | none =>
          have hL : L = [] := by
            cases L with
            | nil => rfl
            | cons a L' => rw [hh] at hhd; exact Option.noConfusion hhd
          subst hL
          simp
        | some h0 =>
          have hLne : L ≠ [] := by
            intro h
            subst h
            rw [hh] at hhd
            exact Option.noConfusion hhd
          have hnh : nextOf L none = some h0 := by rw [← hhd, hh]
          have hh0L : h0 ∈ L := by
            cases L with
            | nil => exact absurd rfl hLne
            | cons a L' => cases hnh; simp
          have hih0 : i ≠ h0 := fun h => hi (h ▸ hh0L)
          refine dseg_retarget_head hseg hnd ?_ ?_ ?_
          · intro n hn
            have hni : n ≠ i := fun h => hi (h ▸ hn)
            by_cases hnh0 : n = h0
            · subst hnh0
              simp [setNext_other hni, setPrev_other hni]
            · simp [setNext_other hni, setPrev_other hni, setPrev_other hnh0]
          · intro n hn hne
            have hni : n ≠ i := fun h => hi (h ▸ hn)
            have hnh0 : n ≠ h0 := by
              intro h
              exact hne (by rw [h, hnh])
            simp [setNext_other hni, setPrev_other hni, setPrev_other hnh0]
          · intro b hb
            rw [hnh] at hb
            cases hb
            simp [setNext_other (Ne.symm hih0), setPrev_other (Ne.symm hih0)]
    · -- the tail pointer is untouched
      rcases htl with hstrong | hweak
      · cases hL : L with
        | nil =>
          subst hL
          right
          exact ⟨hmode, by rw [hstrong]; rfl⟩
        | cons a L' =>
          left
          show s.tail = backOf none (i :: a :: L')
          rw [backOf_cons, backOf_ne_nil (by simp) (some i) none]
          exact hL ▸ hstrong
      · right
        exact ⟨hmode, hweak.2⟩
  · -- splice after the node at physical slot `pos`
    set pos := s.rng.n s.rng.ni % (s.activeParticles + 1) with hposdef
    have hposlt : pos < s.activeParticles := by
      have : pos < s.activeParticles + 1 := Nat.mod_lt _ (Nat.succ_pos _)
      omega
    have hposL : pos ∈ L := hcnt pos hposlt
    obtain ⟨X, Y, hXY⟩ := List.append_of_mem hposL
    subst hXY
    have hndX : X.Nodup := (List.nodup_append.mp hnd).1
    have hndPY : (pos :: Y).Nodup := (List.nodup_append.mp hnd).2.1
    have hdisj : X.Disjoint (pos :: Y) := (List.nodup_append.mp hnd).2.2
    have hposY : pos ∉ Y := (List.nodup_cons.mp hndPY).1
    have hndY : Y.Nodup := (List.nodup_cons.mp hndPY).2
    have hposX : pos ∉ X := fun h => hdisj h (by simp)
    have hiX : i ∉ X := fun h => hi (by simp [h])
    have hiY : i ∉ Y := fun h => hi (by simp [h])
    have hipos : i ≠ pos := fun h => hi (by simp [h])
    -- structure of the original segment around `pos`
    rw [dseg_append] at hseg
    obtain ⟨hsegX, hsegPY⟩ := hseg
    rw [dseg_cons] at hsegPY
    obtain ⟨hprevpos, hnextpos, hsegY⟩ := hsegPY
    refine ⟨X ++ [pos], Y, by simp, ?_⟩
    have hred :
        insertRandom i s =
          let mem := setNext s.mem pos (some i)
          let s' :=
            match (s.mem pos).next with
            | some b =>
                { s with rng := { s.rng with ni := s.rng.ni + 1 }
                         mem := setPrev mem b (some i) }
            | none =>
                { s with rng := { s.rng with ni := s.rng.ni + 1 }
                         mem := mem, tail := some i }
          let mem2 := setPrev s'.mem i (some pos)
          let mem2 := setNext mem2 i (s.mem pos).next
          { s' with mem := mem2 } := by
      simp only [insertRandom, RNG.randNat]
      rw [if_neg hpos]
    rw [hred]
    cases hY : Y with
    | nil =>
      subst hY
      have hnext0 : (s.mem pos).next = none := by rw [hnextpos]; rfl
      rw [hnext0]
      simp only []
      refine ⟨?_, ?_, ?_⟩
      · rw [List.append_assoc, List.singleton_append, dseg_append]
        constructor
        · refine dseg_congr ?_ hsegX
          intro n hn
          have hni : n ≠ i := fun h => hiX (h ▸ hn)
          have hnp : n ≠ pos := fun h => hposX (h ▸ hn)
          simp [setNext_other hni, setPrev_other hni, setNext_other hnp]
        · rw [dseg_cons, dseg_cons]
          refine ⟨?_, ?_, ?_, ?_, by simp⟩
          · simp [setNext_other (Ne.symm hipos), setPrev_other (Ne.symm hipos), hprevpos]
          · simp [setNext_other (Ne.symm hipos), setPrev_other (Ne.symm hipos)]
          · simp
          · simp
      · show s.head = _
        rw [hhd, List.append_assoc, List.singleton_append,
          nextOf_append, nextOf_append]
        cases X with
        | nil => simp
        | cons a X' => simp [nextOf]
      · left
        show some i = _
        rw [List.append_assoc, List.singleton_append, backOf_append, backOf_cons,
          backOf_cons]
        rfl
    | cons b Y' =>
      subst hY
      have hnextb : (s.mem pos).next = some b := by rw [hnextpos]; rfl
      rw [hnextb]
      simp only []
      have hbY : b ∈ b :: Y' := by simp
      have hbi : b ≠ i := fun h => hiY (h ▸ hbY)
      have hbpos : b ≠ pos := fun h => hposY (h ▸ hbY)
      rw [dseg_cons] at hsegY
      obtain ⟨hprevb, hnextb2, hsegY'⟩ := hsegY
      refine ⟨?_, ?_, ?_⟩
      · rw [List.append_assoc, List.singleton_append, dseg_append]
        constructor
        · refine dseg_congr ?_ hsegX
          intro n hn
          have hni : n ≠ i := fun h => hiX (h ▸ hn)
          have hnp : n ≠ pos := fun h => hposX (h ▸ hn)
          have hnb : n ≠ b := fun h => hdisj hn (by simp [h])
          simp [setNext_other hni, setPrev_other hni, setNext_other hnp,
            setPrev_other hnb]
        · rw [dseg_cons, dseg_cons, dseg_cons]
          refine ⟨?_, ?_, ?_, ?_, ?_, ?_, ?_⟩
          · simp [setNext_other (Ne.symm hipos), setPrev_other (Ne.symm hipos),
              setPrev_other (Ne.symm hbpos), hprevpos]
          · simp [setNext_other (Ne.symm hipos), setPrev_other (Ne.symm hipos),
              setPrev_other (Ne.symm hbpos)]
          · simp
          · simp
          · simp [setPrev_other hbi, setNext_other hbi]
          · simp [setPrev_other hbi, setNext_other hbi, setNext_other hbpos, hnextb2]
          · refine dseg_congr ?_ hsegY'
            intro n hn
            have hnY : n ∈ b :: Y' := by simp [hn]
            have hni : n ≠ i := fun h => hiY (h ▸ hnY)
            have hnp : n ≠ pos := fun h => hposY (h ▸ hnY)
            have hnb : n ≠ b := (List.nodup_cons.mp hndY).1 |> fun hb h => hb (h ▸ hn)
            simp [setNext_other hni, setPrev_other hni, setNext_other hnp,
              setPrev_other hnb]
      · show s.head = _
        rw [hhd, List.append_assoc, List.singleton_append,
          nextOf_append, nextOf_append]
        cases X with
        | nil => simp
        | cons a X' => simp [nextOf]
      · show TailOk _ _
        have hLeq : backOf none ((X ++ [pos]) ++ i :: b :: Y') = backOf (some b) Y' := by
          rw [backOf_append, backOf_cons, backOf_cons]
        have hReq : backOf none (X ++ pos :: b :: Y') = backOf (some b) Y' := by
          rw [backOf_append, backOf_cons, backOf_cons]
        rcases htl with hstrong | hweak
        · left
          show s.tail = _
          rw [hLeq, ← hReq]
          exact hstrong
        · right
          exact ⟨hmode, hweak.2⟩

/-! ### Removal lemmas -/

/-- `unlinkParticle` removes `p` from the active list, repairing the
neighbour links and the `pHead`/`pTail` pointers, and returns the old
`p->next`.  Everything except link fields is untouched. -/
theorem unlinkParticle_spec {s : SysState} {A B : List ℕ} {p : ℕ}
    (hseg : dseg s.mem none (A ++ p :: B) none)
    (hhd : s.head = nextOf (A ++ p :: B) none)
    (htl : TailOk s (A ++ p :: B))
    (hnd : (A ++ p :: B).Nodup) :
    (unlinkParticle p s).1 = nextOf B none ∧
    dseg (unlinkParticle p s).2.mem none (A ++ B) none ∧
    (unlinkParticle p s).2.head = nextOf (A ++ B) none ∧
    TailOk (unlinkParticle p s).2 (A ++ B) ∧
    (s.tail = backOf none (A ++ p :: B) →
      (unlinkParticle p s).2.tail = backOf none (A ++ B)) ∧
    (unlinkParticle p s).2.free = s.free ∧
    (unlinkParticle p s).2.activeParticles = s.activeParticles ∧
    (unlinkParticle p s).2.maxParticles = s.maxParticles ∧
    (unlinkParticle p s).2.insertMode = s.insertMode ∧
    (∀ j, ((unlinkParticle p s).2.mem j).payload = (s.mem j).payload) := by
  have hndA : A.Nodup := (List.nodup_append.mp hnd).1
  have hndPB : (p :: B).Nodup := (List.nodup_append.mp hnd).2.1
  have hdisj : A.Disjoint (p :: B) := (List.nodup_append.mp hnd).2.2
  have hpB : p ∉ B := (List.nodup_cons.mp hndPB).1
  have hndB : B.Nodup := (List.nodup_cons.mp hndPB).2
  have hpA : p ∉ A := fun h => hdisj h (by simp)
  rw [dseg_append] at hseg
  obtain ⟨hsegA, hsegPB⟩ := hseg
  rw [dseg_cons] at hsegPB
  obtain ⟨hprevp, hnextp, hsegB⟩ := hsegPB
  have hbackPB : backOf none (A ++ p :: B) = backOf (some p) B := by
    rw [backOf_append, backOf_cons]
  cases hq : backOf none A with
  | some q =>
    have hqA : q ∈ A := backOf_mem hq
    have hqp : q ≠ p := fun h => hpA (h ▸ hqA)
    have hAne : A ≠ [] := by rintro rfl; exact Option.noConfusion hq
    cases hb : nextOf B none with
    | some b =>
      obtain ⟨B', hB⟩ : ∃ B', B = b :: B' := by
        cases B with
        | nil => exact Option.noConfusion hb
        | cons x B' => cases hb; exact ⟨B', rfl⟩
      subst hB
      have hBne : (b :: B') ≠ ([] : List ℕ) := by simp
      have hbB : b ∈ b :: B' := by simp
      have hbp : b ≠ p := fun h => hpB (h ▸ hbB)
      have hbq : b ≠ q := fun h => hdisj (h ▸ hqA) (by simp)
      have hred : unlinkParticle p s =
          (some b,
            { s with mem := setPrev (setNext s.mem q (some b)) b (some q) }) := by
        simp only [unlinkParticle, hprevp, hq, setNext_other (Ne.symm hqp),
          hnextp, hb]
      rw [hred]
      refine ⟨rfl, ?_, ?_, ?_, ?_, rfl, rfl, rfl, rfl, ?_⟩
      · rw [dseg_append]
        constructor
        · refine dseg_retarget_last hsegA hndA ?_ ?_ ?_
          · intro n hn
            have hnb : n ≠ b := fun h => hdisj hn (by simp [h])
            by_cases hnq : n = q
            · subst hnq
              simp [setPrev_other hnb]
            · simp [setPrev_other hnb, setNext_other hnq]
          · intro n hn hne
            have hnb : n ≠ b := fun h => hdisj hn (by simp [h])
            have hnq : n ≠ q := fun h => hne (by rw [h, hq])
            simp [setPrev_other hnb, setNext_other hnq]
          · intro q' hq'
            rw [hq] at hq'
            cases hq'
            simp [setPrev_other (Ne.symm hbq)]
        · rw [hq]
          refine dseg_retarget_head hsegB hndB ?_ ?_ ?_
          · intro n hn
            have hnq : n ≠ q := fun h => hdisj (h ▸ hqA) (by simp [hn]) |>.elim
            by_cases hnb : n = b
            · subst hnb
              simp [setNext_other hnq]
            · simp [setPrev_other hnb, setNext_other hnq]
          · intro n hn hne
            have hnb : n ≠ b := fun h => hne (by rw [h]; rfl)
            have hnq : n ≠ q := fun h => hdisj (h ▸ hqA) (by simp [hn]) |>.elim
            simp [setPrev_other hnb, setNext_other hnq]
          · intro b' hb'
            cases hb'
            simp
      · show s.head = _
        rw [hhd, nextOf_append, nextOf_append,
          nextOf_ne_nil hAne (nextOf (p :: b :: B') none) (nextOf (b :: B') none)]
      · show TailOk _ _
        rcases htl with hstrong | hweak
        · left
          show s.tail = _
          rw [hstrong, hbackPB, backOf_append,
            backOf_ne_nil (A := b :: B') (by simp) (some p) (backOf none A)]
        · right
          exact ⟨hweak.1, hweak.2⟩
      · intro hstrong
        show s.tail = _
        rw [hstrong, hbackPB, backOf_append,
          backOf_ne_nil (A := b :: B') (by simp) (some p) (backOf none A)]
      · intro j
        rw [payload_setPrev, payload_setNext]
    | none =>
      have hB : B = [] := by
        cases B with
        | nil => rfl
        | cons x B' => exact Option.noConfusion hb
      subst hB
      have hred : unlinkParticle p s =
          (none,
            { s with mem := setNext s.mem q none, tail := some q }) := by
        simp only [unlinkParticle, hprevp, hq, setNext_other (Ne.symm hqp),
          hnextp, hb]
      rw [hred]
      refine ⟨rfl, ?_, ?_, ?_, ?_, rfl, rfl, rfl, rfl, ?_⟩
      · rw [List.append_nil]
        refine dseg_retarget_last hsegA hndA ?_ ?_ ?_
        · intro n hn
          by_cases hnq : n = q
          · subst hnq; simp
          · simp [setNext_other hnq]
        · intro n hn hne
          have hnq : n ≠ q := fun h => hne (by rw [h, hq])
          simp [setNext_other hnq]
        · intro q' hq'
          rw [hq] at hq'
          cases hq'
          simp
      · show s.head = _
        rw [hhd, List.append_nil, nextOf_append,
          nextOf_ne_nil hAne (nextOf (p :: []) none) none]
      · left
        show some q = _
        rw [List.append_nil, hq]
      · intro _
        show some q = _
        rw [List.append_nil, hq]
      · intro j
        rw [payload_setNext]
  | none =>
    have hA : A = [] := (backOf_eq_none hq).1
    subst hA
    cases hb : nextOf B none with
    | some b =>
      obtain ⟨B', hB⟩ : ∃ B', B = b :: B' := by
        cases B with
        | nil => exact Option.noConfusion hb
        | cons x B' => cases hb; exact ⟨B', rfl⟩
      subst hB
      have hbp : b ≠ p := fun h => hpB (h ▸ (by simp : b ∈ b :: B'))
      have hred : unlinkParticle p s =
          (some b,
            { s with mem := setPrev s.mem b none, head := some b }) := by
        simp only [unlinkParticle, hprevp, hq, hnextp, hb]
      rw [hred]
      refine ⟨rfl, ?_, rfl, ?_, ?_, rfl, rfl, rfl, rfl, ?_⟩
      · show dseg _ none ([] ++ b :: B') none
        rw [List.nil_append]
        refine dseg_retarget_head hsegB hndB ?_ ?_ ?_
        · intro n hn
          by_cases hnb : n = b
          · subst hnb; simp
          · simp [setPrev_other hnb]
        · intro n hn hne
          have hnb : n ≠ b := fun h => hne (by rw [h]; rfl)
          simp [setPrev_other hnb]
        · intro b' hb'
          cases hb'
          simp
      · show TailOk _ _
        rcases htl with hstrong | hweak
        · left
          show s.tail = _
          rw [hstrong, hbackPB, List.nil_append,
            backOf_ne_nil (A := b :: B') (by simp) (some p) none]
        · right
          exact ⟨hweak.1, hweak.2⟩
      · intro hstrong
        show s.tail = _
        rw [hstrong, hbackPB, List.nil_append,
          backOf_ne_nil (A := b :: B') (by simp) (some p) none]
      · intro j
        rw [payload_setPrev]
    | none =>
      have hB : B = [] := by
        cases B with
        | nil => rfl
        | cons x B' => exact Option.noConfusion hb
      subst hB
      have hred : unlinkParticle p s =
          (none, { s with head := none, tail := none }) := by
        simp only [unlinkParticle, hprevp, hq, hnextp, hb]
      rw [hred]
      exact ⟨rfl, by simp, rfl, Or.inl rfl, fun _ => rfl, rfl, rfl, rfl, rfl,
        fun j => rfl⟩

@[simp]
theorem relabel_same {last p : ℕ} : relabel last p last = p := by
  simp [relabel]

theorem relabel_other {last p j : ℕ} (h : j ≠ last) : relabel last p j = j := by
  simp [relabel, h]

theorem map_relabel_of_not_mem {last p : ℕ} {L : List ℕ} (h : last ∉ L) :
    L.map (relabel last p) = L := by
  induction L with
  | nil => rfl
  | cons a L' ih =>
    simp only [List.map_cons]
    rw [relabel_other (fun ha => h (by simp [ha])), ih (fun hm => h (by simp [hm]))]

/-- Every slot below the free boundary is on the active list (pigeonhole
from distinctness, boundedness and the length). -/
theorem mem_of_lt_free {L : List ℕ} {n : ℕ}
    (hnd : L.Nodup) (hlt : ∀ i ∈ L, i < n) (hlen : L.length = n) :
    ∀ j < n, j ∈ L := by
  intro j hj
  have hsub : L.toFinset ⊆ Finset.range n := by
    intro x hx
    simp only [List.mem_toFinset] at hx
    exact Finset.mem_range.mpr (hlt x hx)
  have hcard : (Finset.range n).card ≤ L.toFinset.card := by
    rw [List.toFinset_card_of_nodup hnd, hlen, Finset.card_range]
  have heq : L.toFinset = Finset.range n := Finset.eq_of_subset_of_card_le hsub hcard
  have : j ∈ L.toFinset := heq ▸ Finset.mem_range.mpr hj
  exact List.mem_toFinset.mp this

/-- `compactParticle` relocates the node in the last allocated slot into
the freed slot `p`, renaming that one node throughout the list structure
and redirecting the returned iterator accordingly. -/
theorem compactParticle_spec {s : SysState} {C : List ℕ} {p : ℕ}
    (pNext : Option ℕ)
    (hseg : dseg s.mem none C none)
    (hhd : s.head = nextOf C none)
    (htl : TailOk s C)
    (hnd : C.Nodup)
    (hp : p ∉ C)
    (hplt : p < s.free)
    (hlt : ∀ i ∈ C, i < s.free)
    (hlen : C.length = s.free - 1) :
    (compactParticle p pNext s).1 = pNext.map (relabel (s.free - 1) p) ∧
    dseg (compactParticle p pNext s).2.mem none (C.map (relabel (s.free - 1) p)) none ∧
    (compactParticle p pNext s).2.head = nextOf (C.map (relabel (s.free - 1) p)) none ∧
    TailOk (compactParticle p pNext s).2 (C.map (relabel (s.free - 1) p)) ∧
    (s.tail = backOf none C →
      (compactParticle p pNext s).2.tail = backOf none (C.map (relabel (s.free - 1) p))) ∧
    (C.map (relabel (s.free - 1) p)).Nodup ∧
    (∀ i ∈ C.map (relabel (s.free - 1) p), i < (compactParticle p pNext s).2.free) ∧
    (C.map (relabel (s.free - 1) p)).length = (compactParticle p pNext s).2.free ∧
    (compactParticle p pNext s).2.free = s.free - 1 ∧
    (compactParticle p pNext s).2.activeParticles = s.activeParticles - 1 ∧
    (compactParticle p pNext s).2.maxParticles = s.maxParticles ∧
    (compactParticle p pNext s).2.insertMode = s.insertMode ∧
    (p ≠ s.free - 1 →
      ((compactParticle p pNext s).2.mem p).payload = (s.mem (s.free - 1)).payload) := by
  have hfree1 : 1 ≤ s.free := Nat.one_le_iff_ne_zero.mpr (by omega)
  by_cases hple : p = s.free - 1
  · -- the removed particle is the last allocated slot: no move needed
    have hlastC : s.free - 1 ∉ C := hple ▸ hp
    have hmap : C.map (relabel (s.free - 1) p) = C := map_relabel_of_not_mem hlastC
    have hred : compactParticle p pNext s =
        (pNext, { s with free := s.free - 1
                         activeParticles := s.activeParticles - 1 }) := by
      simp only [compactParticle]
      rw [if_pos hple]
    rw [hred, hmap]
    refine ⟨?_, hseg, hhd, ?_, ?_, hnd, ?_, ?_, rfl, rfl, rfl, rfl, fun h => absurd hple h⟩
    · cases pNext with
      | none => rfl
      | some x =>
        by_cases hx : x = s.free - 1
        · simp [hx, relabel, hple]
        · simp [relabel, hx]
    · rcases htl with hstrong | hweak
      · exact Or.inl hstrong
      · exact Or.inr ⟨hweak.1, hweak.2⟩
    · intro hstrong
      exact hstrong
    · intro i hi
      have h1 : i < s.free := hlt i hi
      have h2 : i ≠ s.free - 1 := fun h => hlastC (h ▸ hi)
      show i < s.free - 1
      omega
    · exact hlen
  · -- the last allocated slot moves into the freed slot
    have hlast_lt : s.free - 1 < s.free := by omega
    have hlastC : s.free - 1 ∈ C := by
      have hmem : ∀ j < s.free, j ∈ p :: C :=
        mem_of_lt_free (List.nodup_cons.mpr ⟨hp, hnd⟩)
          (by
            intro i hi
            rcases List.mem_cons.mp hi with h | h
            · exact h ▸ hplt
            · exact hlt i h)
          (by simp [hlen]; omega)
      rcases List.mem_cons.mp (hmem (s.free - 1) hlast_lt) with h | h
      · exact absurd h.symm hple
      · exact h
    obtain ⟨X, Y, hXY⟩ := List.append_of_mem hlastC
    subst hXY
    have hndX : X.Nodup := (List.nodup_append.mp hnd).1
    have hndLY : ((s.free - 1) :: Y).Nodup := (List.nodup_append.mp hnd).2.1
    have hdisj : X.Disjoint ((s.free - 1) :: Y) := (List.nodup_append.mp hnd).2.2
    have hlastY : s.free - 1 ∉ Y := (List.nodup_cons.mp hndLY).1
    have hndY : Y.Nodup := (List.nodup_cons.mp hndLY).2
    have hlastX : s.free - 1 ∉ X := fun h => hdisj h (by simp)
    have hpX : p ∉ X := fun h => hp (by simp [h])
    have hpY : p ∉ Y := fun h => hp (by simp [h])
    rw [dseg_append] at hseg
    obtain ⟨hsegX, hsegLY⟩ := hseg
    rw [dseg_cons] at hsegLY
    obtain ⟨hprevlast, hnextlast, hsegY⟩ := hsegLY
    have hmap : (X ++ (s.free - 1) :: Y).map (relabel (s.free - 1) p) = X ++ p :: Y := by
      rw [List.map_append, List.map_cons, relabel_same,
        map_relabel_of_not_mem hlastX, map_relabel_of_not_mem hlastY]
    rw [hmap]
    have hretmap : (if pNext = some (s.free - 1) then some p else pNext) =
        pNext.map (relabel (s.free - 1) p) := by
      cases pNext with
      | none => rfl
      | some x =>
        by_cases hx : x = s.free - 1
        · simp [hx, relabel]
        · simp [hx, relabel_other hx]
    cases hq : backOf none X with
    | some q =>
      have hqX : q ∈ X := backOf_mem hq
      have hXne : X ≠ [] := by rintro rfl; exact Option.noConfusion hq
      have hqp : q ≠ p := fun h => hpX (h ▸ hqX)
      have hqlast : q ≠ s.free - 1 := fun h => hlastX (h ▸ hqX)
      cases hb : nextOf Y none with
      | some b =>
        obtain ⟨Y', hY⟩ : ∃ Y', Y = b :: Y' := by
          cases Y with
          | nil => exact Option.noConfusion hb
          | cons x Y' => cases hb; exact ⟨Y', rfl⟩
        subst hY
        have hbY : b ∈ b :: Y' := by simp
        have hbp : b ≠ p := fun h => hpY (h ▸ hbY)
        have hblast : b ≠ s.free - 1 := fun h => hlastY (h ▸ hbY)
        have hbq : b ≠ q := fun h => hdisj (h ▸ hqX) (by simp)
        have hred : compactParticle p pNext s =
            (if pNext = some (s.free - 1) then some p else pNext,
              { s with
                  free := s.free - 1
                  activeParticles := s.activeParticles - 1
                  mem := setPrev
                    (setNext (setMem s.mem p (s.mem (s.free - 1))) q (some p))
                    b (some p) }) := by
          simp only [compactParticle]
          rw [if_neg hple]
          simp only [setMem_same, hprevlast, hq, setNext_other (Ne.symm hqp),
            setMem_same, hnextlast, hb]
        rw [hred, hretmap]
        refine ⟨rfl, ?_, ?_, ?_, ?_, ?_, ?_, ?_, rfl, rfl, rfl, rfl, ?_⟩
        · rw [dseg_append]
          constructor
          · refine dseg_retarget_last hsegX hndX ?_ ?_ ?_
            · intro n hn
              have hnb : n ≠ b := fun h => hdisj hn (by simp [h])
              have hnp : n ≠ p := fun h => hpX (h ▸ hn)
              by_cases hnq : n = q
              · subst hnq
                simp [setPrev_other hnb, setMem_other hnp]
              · simp [setPrev_other hnb, setNext_other hnq, setMem_other hnp]
            · intro n hn hne
              have hnb : n ≠ b := fun h => hdisj hn (by simp [h])
              have hnp : n ≠ p := fun h => hpX (h ▸ hn)
              have hnq : n ≠ q := fun h => hne (by rw [h, hq])
              simp [setPrev_other hnb, setNext_other hnq, setMem_other hnp]
            · intro q' hq'
              rw [hq] at hq'
              cases hq'
              simp [setPrev_other (Ne.symm hbq)]
          · rw [hq, dseg_cons]
            refine ⟨?_, ?_, ?_⟩
            · simp [setPrev_other hbp.symm, setNext_other hqp.symm, hprevlast, hq]
            · simp [setPrev_other hbp.symm, setNext_other hqp.symm, hnextlast, hb]
            · refine dseg_retarget_head hsegY hndY ?_ ?_ ?_
              · intro n hn
                have hnq : n ≠ q := fun h => hdisj (h ▸ hqX) (by simp [hn]) |>.elim
                have hnlast : n ≠ s.free - 1 := fun h => hlastY (h ▸ hn)
                have hnp : n ≠ p := fun h => hpY (h ▸ hn)
                by_cases hnb : n = b
                · subst hnb
                  simp [setNext_other hnq, setMem_other hnp]
                · simp [setPrev_other hnb, setNext_other hnq, setMem_other hnp]
              · intro n hn hne
                have hnb : n ≠ b := fun h => hne (by rw [h]; rfl)
                have hnq : n ≠ q := fun h => hdisj (h ▸ hqX) (by simp [hn]) |>.elim
                have hnp : n ≠ p := fun h => hpY (h ▸ hn)
                simp [setPrev_other hnb, setNext_other hnq, setMem_other hnp]
              · intro b' hb'
                cases hb'
                simp
        · show s.head = _
          rw [hhd, nextOf_append, nextOf_append,
            nextOf_ne_nil hXne (nextOf ((s.free - 1) :: b :: Y') none)
              (nextOf (p :: b :: Y') none)]
        · show TailOk _ _
          have hLeq : backOf none (X ++ (s.free - 1) :: b :: Y') = backOf (some b) Y' := by
            rw [backOf_append, backOf_cons, backOf_cons]
          have hReq : backOf none (X ++ p :: b :: Y') = backOf (some b) Y' := by
            rw [backOf_append, backOf_cons, backOf_cons]
          rcases htl with hstrong | hweak
          · left
            show s.tail = _
            rw [hReq, ← hLeq]
            exact hstrong
          · right
            exact ⟨hweak.1, hweak.2⟩
        · intro hstrong
          have hLeq : backOf none (X ++ (s.free - 1) :: b :: Y') = backOf (some b) Y' := by
            rw [backOf_append, backOf_cons, backOf_cons]
          have hReq : backOf none (X ++ p :: b :: Y') = backOf (some b) Y' := by
            rw [backOf_append, backOf_cons, backOf_cons]
          show s.tail = _
          rw [hReq, ← hLeq]
          exact hstrong
        · rw [List.nodup_append]
          refine ⟨hndX, List.nodup_cons.mpr ⟨hpY, hndY⟩, ?_⟩
          intro a haX haPY
          rcases List.mem_cons.mp haPY with h | h
          · exact hpX (h ▸ haX)
          · exact hdisj haX (by simp [h])
        · intro i hi
          show i < s.free - 1
          rcases List.mem_append.mp hi with h | h
          · have := hlt i (by simp [h])
            have : i ≠ s.free - 1 := fun he => hlastX (he ▸ h)
            omega
          · rcases List.mem_cons.mp h with h' | h'
            · subst h'
              omega
            · have h1 := hlt i (by simp [h'])
              have h2 : i ≠ s.free - 1 := fun he => hlastY (he ▸ h')
              omega
        · show _ = s.free - 1
          have := hlen
          simp at this ⊢
          omega
        · intro _
          rw [payload_setPrev, payload_setNext]
          simp [Particle.payload]
      | none =>
        have hY : Y = [] := by
          cases Y with
          | nil => rfl
          | cons x Y' => exact Option.noConfusion hb
        subst hY
        have hred : compactParticle p pNext s =
            (if pNext = some (s.free - 1) then some p else pNext,
              { s with
                  free := s.free - 1
                  activeParticles := s.activeParticles - 1
                  mem := setNext (setMem s.mem p (s.mem (s.free - 1))) q (some p)
                  tail := some p }) := by
          simp only [compactParticle]
          rw [if_neg hple]
          simp only [setMem_same, hprevlast, hq, setNext_other (Ne.symm hqp),
            setMem_same, hnextlast, hb]
        rw [hred, hretmap]
        refine ⟨rfl, ?_, ?_, ?_, ?_, ?_, ?_, ?_, rfl, rfl, rfl, rfl, ?_⟩
        · rw [dseg_append]
          constructor
          · refine dseg_retarget_last hsegX hndX ?_ ?_ ?_
            · intro n hn
              have hnp : n ≠ p := fun h => hpX (h ▸ hn)
              by_cases hnq : n = q
              · subst hnq
                simp [setMem_other hnp]
              · simp [setNext_other hnq, setMem_other hnp]
            · intro n hn hne
              have hnp : n ≠ p := fun h => hpX (h ▸ hn)
              have hnq : n ≠ q := fun h => hne (by rw [h, hq])
              simp [setNext_other hnq, setMem_other hnp]
            · intro q' hq'
              rw [hq] at hq'
              cases hq'
              simp
          · rw [hq, dseg_cons]
            refine ⟨?_, ?_, by simp⟩
            · simp [setNext_other hqp.symm, hprevlast, hq]
            · simp [setNext_other hqp.symm, hnextlast, hb]
        · show s.head = _
          rw [hhd, nextOf_append, nextOf_append,
            nextOf_ne_nil hXne (nextOf ((s.free - 1) :: ([] : List ℕ)) none)
              (nextOf (p :: ([] : List ℕ)) none)]
        · left
          show some p = _
          rw [backOf_append, backOf_cons]
          rfl
        · intro _
          show some p = _
          rw [backOf_append, backOf_cons]
          rfl
        · rw [List.nodup_append]
          refine ⟨hndX, by simp, ?_⟩
          intro a haX haP
          rcases List.mem_cons.mp haP with h | h
          · exact hpX (h ▸ haX)
          · simp at h
        · intro i hi
          show i < s.free - 1
          rcases List.mem_append.mp hi with h | h
          · have := hlt i (by simp [h])
            have : i ≠ s.free - 1 := fun he => hlastX (he ▸ h)
            omega
          · rcases List.mem_cons.mp h with h' | h'
            · subst h'
              omega
            · simp at h'
        · show _ = s.free - 1
          have := hlen
          simp at this ⊢
          omega
        · intro _
          rw [payload_setNext]
          simp [Particle.payload]
    | none =>
      have hX : X = [] := (backOf_eq_none hq).1
      subst hX
      cases hb : nextOf Y none with
      | some b =>
        obtain ⟨Y', hY⟩ : ∃ Y', Y = b :: Y' := by
          cases Y with
          | nil => exact Option.noConfusion hb
          | cons x Y' => cases hb; exact ⟨Y', rfl⟩
        subst hY
        have hbY : b ∈ b :: Y' := by simp
        have hbp : b ≠ p := fun h => hpY (h ▸ hbY)
        have hred : compactParticle p pNext s =
            (if pNext = some (s.free - 1) then some p else pNext,
              { s with
                  free := s.free - 1
                  activeParticles := s.activeParticles - 1
                  mem := setPrev (setMem s.mem p (s.mem (s.free - 1))) b (some p)
                  head := some p }) := by
          simp only [compactParticle]
          rw [if_neg hple]
          simp only [setMem_same, hprevlast, hq, hnextlast, hb]
        rw [hred, hretmap]
        refine ⟨rfl, ?_, rfl, ?_, ?_, ?_, ?_, ?_, rfl, rfl, rfl, rfl, ?_⟩
        · show dseg _ none ([] ++ p :: b :: Y') none
          rw [List.nil_append, dseg_cons]
          refine ⟨?_, ?_, ?_⟩
          · simp [setPrev_other hbp.symm, hprevlast, hq]
          · simp [setPrev_other hbp.symm, hnextlast, hb]
          · refine dseg_retarget_head hsegY hndY ?_ ?_ ?_
            · intro n hn
              have hnp : n ≠ p := fun h => hpY (h ▸ hn)
              by_cases hnb : n = b
              · subst hnb
                simp [setMem_other hnp]
              · simp [setPrev_other hnb, setMem_other hnp]
            · intro n hn hne
              have hnb : n ≠ b := fun h => hne (by rw [h]; rfl)
              have hnp : n ≠ p := fun h => hpY (h ▸ hn)
              simp [setPrev_other hnb, setMem_other hnp]
            · intro b' hb'
              cases hb'
              simp
        · show TailOk _ _
          have hLeq : backOf none ([] ++ (s.free - 1) :: b :: Y') = backOf (some b) Y' := by
            rw [List.nil_append, backOf_cons, backOf_cons]
          have hReq : backOf none ([] ++ p :: b :: Y') = backOf (some b) Y' := by
            rw [List.nil_append, backOf_cons, backOf_cons]
          rcases htl with hstrong | hweak
          · left
            show s.tail = _
            rw [hReq, ← hLeq]
            exact hstrong
          · right
            exact ⟨hweak.1, hweak.2⟩
        · intro hstrong
          have hLeq : backOf none ([] ++ (s.free - 1) :: b :: Y') = backOf (some b) Y' := by
            rw [List.nil_append, backOf_cons, backOf_cons]
          have hReq : backOf none ([] ++ p :: b :: Y') = backOf (some b) Y' := by
            rw [List.nil_append, backOf_cons, backOf_cons]
          show s.tail = _
          rw [hReq, ← hLeq]
          exact hstrong
        · simp only [List.nil_append]
          exact List.nodup_cons.mpr ⟨hpY, hndY⟩
        · intro i hi
          show i < s.free - 1
          simp only [List.nil_append] at hi
          rcases List.mem_cons.mp hi with h' | h'
          · subst h'
            omega
          · have h1 := hlt i (by simp [h'])
            have h2 : i ≠ s.free - 1 := fun he => hlastY (he ▸ h')
            omega
        · show _ = s.free - 1
          have := hlen
          simp at this ⊢
          omega
        · intro _
          rw [payload_setPrev]
          simp [Particle.payload]
      | none =>
        have hY : Y = [] := by
          cases Y with
          | nil => rfl
          | cons x Y' => exact Option.noConfusion hb
        subst hY
        have hred : compactParticle p pNext s =
            (if pNext = some (s.free - 1) then some p else pNext,
              { s with
                  free := s.free - 1
                  activeParticles := s.activeParticles - 1
                  mem := setMem s.mem p (s.mem (s.free - 1))
                  head := some p
                  tail := some p }) := by
          simp only [compactParticle]
          rw [if_neg hple]
          simp only [setMem_same, hprevlast, hq, hnextlast]
          rfl
        rw [hred, hretmap]
        refine ⟨rfl, ?_, rfl, ?_, ?_, by simp, ?_, ?_, rfl, rfl, rfl, rfl, ?_⟩
        · show dseg _ none ([] ++ [p]) none
          rw [List.nil_append, dseg_cons]
          exact ⟨by simp [hprevlast, hq], by simp [hnextlast], by simp⟩
        · left
          show some p = _
          rfl
        · intro _
          show some p = _
          rfl
        · intro i hi
          simp only [List.nil_append, List.mem_singleton] at hi
          subst hi
          show i < s.free - 1
          omega
        · show _ = s.free - 1
          have := hlen
          simp at this ⊢
          omega
        · intro _
          simp [Particle.payload]

/-- The combined `removeParticle` specification: unlinking `p` from the
list `A ++ p :: B` and compacting yields the list `(A ++ B)` up to the
renaming of the moved last slot, returns the (renamed) old `p->next`, and
decrements the free boundary and the active count; the freed slot `p`
receives the last allocated slot's payload. -/
theorem removeParticle_spec {s : SysState} {A B : List ℕ} {p : ℕ}
    (hseg : dseg s.mem none (A ++ p :: B) none)
    (hhd : s.head = nextOf (A ++ p :: B) none)
    (htl : TailOk s (A ++ p :: B))
    (hnd : (A ++ p :: B).Nodup)
    (hlt : ∀ i ∈ A ++ p :: B, i < s.free)
    (hlen : (A ++ p :: B).length = s.free) :
    (removeParticle p s).1 = (nextOf B none).map (relabel (s.free - 1) p) ∧
    dseg (removeParticle p s).2.mem none
      ((A ++ B).map (relabel (s.free - 1) p)) none ∧
    (removeParticle p s).2.head =
      nextOf ((A ++ B).map (relabel (s.free - 1) p)) none ∧
    TailOk (removeParticle p s).2 ((A ++ B).map (relabel (s.free - 1) p)) ∧
    (s.tail = backOf none (A ++ p :: B) →
      (removeParticle p s).2.tail =
        backOf none ((A ++ B).map (relabel (s.free - 1) p))) ∧
    ((A ++ B).map (relabel (s.free - 1) p)).Nodup ∧
    (∀ i ∈ (A ++ B).map (relabel (s.free - 1) p), i < (removeParticle p s).2.free) ∧
    ((A ++ B).map (relabel (s.free - 1) p)).length = (removeParticle p s).2.free ∧
    (removeParticle p s).2.free = s.free - 1 ∧
    (removeParticle p s).2.activeParticles = s.activeParticles - 1 ∧
    (removeParticle p s).2.maxParticles = s.maxParticles ∧
    (removeParticle p s).2.insertMode = s.insertMode ∧
    (p ≠ s.free - 1 →
      ((removeParticle p s).2.mem p).payload = (s.mem (s.free - 1)).payload) := by
  obtain ⟨hu1, hu2, hu3, hu4, hu5, hu6, hu7, hu8, hu9, hu10⟩ :=
    unlinkParticle_spec hseg hhd htl hnd
  have hndC : (A ++ B).Nodup :=
    List.Nodup.sublist (List.Sublist.append_left (List.sublist_cons_self p B) A) hnd
  have hpC : p ∉ A ++ B := by
    intro hmem
    rcases List.mem_append.mp hmem with h | h
    · exact (List.nodup_append.mp hnd).2.2 h (by simp)
    · exact (List.nodup_cons.mp (List.nodup_append.mp hnd).2.1).1 h
  have hplt : p < s.free := hlt p (by simp)
  have hpltu : p < (unlinkParticle p s).2.free := by rw [hu6]; exact hplt
  have hltu : ∀ i ∈ A ++ B, i < (unlinkParticle p s).2.free := by
    intro i hi
    rw [hu6]
    refine hlt i ?_
    rcases List.mem_append.mp hi with h | h
    · exact List.mem_append.mpr (Or.inl h)
    · exact List.mem_append.mpr (Or.inr (by simp [h]))
  have hlenu : (A ++ B).length = (unlinkParticle p s).2.free - 1 := by
    rw [hu6]
    simp only [List.length_append, List.length_cons] at hlen ⊢
    omega
  obtain ⟨hc1, hc2, hc3, hc4, hc5, hc6, hc7, hc8, hc9, hc10, hc11, hc12, hc13⟩ :=
    compactParticle_spec (unlinkParticle p s).1
      hu2 hu3 hu4 hndC hpC hpltu hltu hlenu
  have hrm : removeParticle p s =
      compactParticle p (unlinkParticle p s).1 (unlinkParticle p s).2 := rfl
  rw [hu6] at hc1 hc2 hc3 hc4 hc5 hc6 hc7 hc8 hc9 hc13
  rw [hrm]
  refine ⟨?_, hc2, hc3, hc4, ?_, hc6, hc7, hc8, hc9, ?_, ?_, ?_, ?_⟩
  · rw [hc1, hu1]
  · intro hstrong
    exact hc5 (hu5 hstrong)
  · rw [hc10, hu7]
  · rw [hc11, hu8]
  · rw [hc12, hu9]
  · intro hne
    rw [hc13 hne, hu10]

/-! ### Allocation lemmas -/

/-- `initParticle` never writes the intrusive link fields. -/
theorem initParticle_links (m : MathOps) (s : SysState) (t : ℚ) (old : Particle) :
    ((initParticle m s t old).1).prev = old.prev ∧
    ((initParticle m s t old).1).next = old.next := by
  unfold initParticle
  simp only [RNG.random2, RNG.random1, RNG.random, RNG.randomNormal, calcVariation]
  constructor <;> trivial

theorem insertTop_frame (i : ℕ) (s : SysState) :
    (insertTop i s).free = s.free ∧
    (insertTop i s).activeParticles = s.activeParticles ∧
    (insertTop i s).maxParticles = s.maxParticles ∧
    (insertTop i s).insertMode = s.insertMode := by
  unfold insertTop
  cases s.head with
  | none => exact ⟨rfl, rfl, rfl, rfl⟩
  | some h0 =>
    cases s.tail with
    | none => exact ⟨rfl, rfl, rfl, rfl⟩
    | some t0 => exact ⟨rfl, rfl, rfl, rfl⟩

theorem insertBottom_frame (i : ℕ) (s : SysState) :
    (insertBottom i s).free = s.free ∧
    (insertBottom i s).activeParticles = s.activeParticles ∧
    (insertBottom i s).maxParticles = s.maxParticles ∧
    (insertBottom i s).insertMode = s.insertMode := by
  unfold insertBottom
  cases s.tail with
  | none => exact ⟨rfl, rfl, rfl, rfl⟩
  | some t0 =>
    cases s.head with
    | none => exact ⟨rfl, rfl, rfl, rfl⟩
    | some h0 => exact ⟨rfl, rfl, rfl, rfl⟩

theorem insertRandom_frame (i : ℕ) (s : SysState) :
    (insertRandom i s).free = s.free ∧
    (insertRandom i s).activeParticles = s.activeParticles ∧
    (insertRandom i s).maxParticles = s.maxParticles ∧
    (insertRandom i s).insertMode = s.insertMode := by
  unfold insertRandom
  simp only [RNG.randNat]
  by_cases hp : s.rng.n s.rng.ni % (s.activeParticles + 1) = s.activeParticles
  · rw [if_pos hp]
    cases s.head with
    | none => exact ⟨rfl, rfl, rfl, rfl⟩
    | some h0 => exact ⟨rfl, rfl, rfl, rfl⟩
  · rw [if_neg hp]
    cases (s.mem (s.rng.n s.rng.ni % (s.activeParticles + 1))).next with
    | none => exact ⟨rfl, rfl, rfl, rfl⟩
    | some b => exact ⟨rfl, rfl, rfl, rfl⟩

/-- `addParticle` preserves the pool invariant: either the pool is full
and nothing happens, or the fresh slot is initialized and linked according
to the insert mode. -/
theorem addParticle_winv {s : SysState} {L : List ℕ} (m : MathOps) (t : ℚ)
    (h : WInv s L) :
    ∃ L', WInv (addParticle m t s) L' ∧ ∀ j ∈ L', j ∈ L ∨ j = s.free := by
  obtain ⟨hseg, hhd, htl, hnd, hlt, hlen, hcnt, hcap⟩ := h
  by_cases hfull : isFull s = true
  · refine ⟨L, ?_, fun j hj => Or.inl hj⟩
    have : addParticle m t s = s := by
      unfold addParticle
      rw [if_pos hfull]
    rw [this]
    exact ⟨hseg, hhd, htl, hnd, hlt, hlen, hcnt, hcap⟩
  · have hne : s.activeParticles ≠ s.maxParticles := by
      intro hda
      exact hfull (by simp [isFull, hda])
    have hflt : s.free < s.maxParticles := by omega
    have hiL : s.free ∉ L := fun hm => absurd (hlt _ hm) (lt_irrefl _)
    have hred : addParticle m t s =
        (let s1 : SysState :=
          { s with free := s.free + 1
                   mem := setMem s.mem s.free (initParticle m s t (s.mem s.free)).1
                   rng := (initParticle m s t (s.mem s.free)).2 }
         let s2 : SysState :=
           match s.insertMode with
           | .top => insertTop s.free s1
           | .bottom => insertBottom s.free s1
           | .random => insertRandom s.free s1
         { s2 with activeParticles := s2.activeParticles + 1 }) := by
      unfold addParticle
      rw [if_neg hfull]
    rw [hred]
    set s1 : SysState :=
      { s with free := s.free + 1
               mem := setMem s.mem s.free (initParticle m s t (s.mem s.free)).1
               rng := (initParticle m s t (s.mem s.free)).2 } with hs1
    have hseg1 : dseg s1.mem none L none := by
      refine dseg_congr ?_ hseg
      intro n hn
      have hni : n ≠ s.free := fun hh => hiL (hh ▸ hn)
      show ((setMem s.mem s.free _ : ℕ → Particle) n).prev = _ ∧
        ((setMem s.mem s.free _ : ℕ → Particle) n).next = _
      rw [setMem_other hni]
      exact ⟨rfl, rfl⟩
    have hhd1 : s1.head = nextOf L none := hhd
    have hlt1 : ∀ i ∈ L, i < s1.free := fun i hi => Nat.lt_succ_of_lt (hlt i hi)
    cases hmode : s.insertMode with
    | top =>
      have htls : s.tail = backOf none L := by
        rcases htl with hstrong | hweak
        · exact hstrong
        · rw [hmode] at hweak
          exact absurd hweak.1 (by simp)
      have hsp := insertTop_spec (s := s1) (L := L) (i := s.free)
        hseg1 hhd1 htls hnd hiL
      have hfr := insertTop_frame s.free s1
      refine ⟨L ++ [s.free], ?_,
        fun j hj => (List.mem_append.mp hj).imp id (fun hs => by simpa using hs)⟩
      simp only [hmode]
      refine ⟨hsp.1, hsp.2.1, ?_, ?_, ?_, ?_, ?_, ?_⟩
      · left
        exact hsp.2.2
      · exact List.nodup_append.mpr ⟨hnd, by simp, by
          intro a ha hb
          simp only [List.mem_singleton] at hb
          exact hiL (hb ▸ ha)⟩
      · intro i hi
        show i < (insertTop s.free s1).free
        rw [hfr.1]
        rcases List.mem_append.mp hi with hL | hsing
        · exact Nat.lt_succ_of_lt (hlt i hL)
        · simp only [List.mem_singleton] at hsing
          subst hsing
          exact Nat.lt_succ_self _
      · show _ = (insertTop s.free s1).free
        rw [hfr.1]
        simp [hlen]
      · show (insertTop s.free s1).activeParticles + 1 = (insertTop s.free s1).free
        rw [hfr.1, hfr.2.1]
        show s.activeParticles + 1 = s.free + 1
        omega
      · show (insertTop s.free s1).free ≤ (insertTop s.free s1).maxParticles
        rw [hfr.1, hfr.2.2.1]
        show s.free + 1 ≤ s.maxParticles
        omega
    | bottom =>
      have htls : s.tail = backOf none L := by
        rcases htl with hstrong | hweak
        · exact hstrong
        · rw [hmode] at hweak
          exact absurd hweak.1 (by simp)
      have hsp := insertBottom_spec (s := s1) (L := L) (i := s.free)
        hseg1 hhd1 htls hnd hiL
      have hfr := insertBottom_frame s.free s1
      refine ⟨s.free :: L, ?_, fun j hj => (List.mem_cons.mp hj).symm⟩
      simp only [hmode]
      refine ⟨hsp.1, hsp.2.1, ?_, ?_, ?_, ?_, ?_, ?_⟩
      · left
        exact hsp.2.2
      · exact List.nodup_cons.mpr ⟨hiL, hnd⟩
      · intro i hi
        show i < (insertBottom s.free s1).free
        rw [hfr.1]
        rcases List.mem_cons.mp hi with hsing | hL
        · subst hsing
          exact Nat.lt_succ_self _
        · exact Nat.lt_succ_of_lt (hlt i hL)
      · show _ = (insertBottom s.free s1).free
        rw [hfr.1]
        simp [hlen]
      · show (insertBottom s.free s1).activeParticles + 1 = (insertBottom s.free s1).free
        rw [hfr.1, hfr.2.1]
        show s.activeParticles + 1 = s.free + 1
        omega
      · show (insertBottom s.free s1).free ≤ (insertBottom s.free s1).maxParticles
        rw [hfr.1, hfr.2.2.1]
        show s.free + 1 ≤ s.maxParticles
        omega
    | random =>
      have htl1 : TailOk s1 L := by
        rcases htl with hstrong | hweak
        · exact Or.inl hstrong
        · exact Or.inr ⟨hweak.1, hweak.2⟩
      have hmode1 : s1.insertMode = .random := hmode
      have hcnt1 : ∀ j < s1.activeParticles, j ∈ L := by
        intro j hj
        exact mem_of_lt_free hnd hlt hlen j (by rw [← hcnt]; exact hj)
      obtain ⟨A, B, hAB, hsegr, hhdr, htlr⟩ :=
        insertRandom_spec (s := s1) (L := L) (i := s.free)
          hseg1 hhd1 htl1 hnd hiL hmode1 hcnt1
      have hfr := insertRandom_frame s.free s1
      refine ⟨A ++ s.free :: B, ?_, fun j hj => by
        rcases List.mem_append.mp hj with hA | hB
        · exact Or.inl (hAB ▸ List.mem_append.mpr (Or.inl hA))
        · rcases List.mem_cons.mp hB with hsing | hB'
          · exact Or.inr hsing
          · exact Or.inl (hAB ▸ List.mem_append.mpr (Or.inr hB'))⟩
      simp only [hmode]
      refine ⟨hsegr, hhdr, ?_, ?_, ?_, ?_, ?_, ?_⟩
      · rcases htlr with hstrong | hweak
        · exact Or.inl hstrong
        · exact Or.inr ⟨hweak.1, hweak.2⟩
      · rw [List.nodup_middle, List.nodup_cons]
        exact ⟨hAB ▸ hiL, hAB ▸ hnd⟩
      · intro i hi
        show i < (insertRandom s.free s1).free
        rw [hfr.1]
        rcases (List.mem_append.mp hi) with hA | hB
        · exact Nat.lt_succ_of_lt (hlt i (hAB ▸ List.mem_append.mpr (Or.inl hA)))
        · rcases List.mem_cons.mp hB with hsing | hB'
          · subst hsing
            exact Nat.lt_succ_self _
          · exact Nat.lt_succ_of_lt (hlt i (hAB ▸ List.mem_append.mpr (Or.inr hB')))
      · show _ = (insertRandom s.free s1).free
        rw [hfr.1]
        have : L.length = A.length + B.length := by rw [hAB]; simp
        simp only [List.length_append, List.length_cons]
        show A.length + (B.length + 1) = s.free + 1
        omega
      · show (insertRandom s.free s1).activeParticles + 1 = (insertRandom s.free s1).free
        rw [hfr.1, hfr.2.1]
        show s.activeParticles + 1 = s.free + 1
        omega
      · show (insertRandom s.free s1).free ≤ (insertRandom s.free s1).maxParticles
        rw [hfr.1, hfr.2.2.1]
        show s.free + 1 ≤ s.maxParticles
        omega

/-! ### Update-loop lemmas -/

/-- `integrate` never writes the intrusive link fields. -/
theorem integrate_links (m : MathOps) (dt : ℚ) (nq : ℕ) (sz : List ℚ)
    (cl : List Colorf) (rr : Bool) (p : Particle) :
    (integrate m dt nq sz cl rr p).prev = p.prev ∧
    (integrate m dt nq sz cl rr p).next = p.next :=
  ⟨rfl, rfl⟩

/-- The traversal loop of `update` preserves the pool invariant, for any
fuel, provided the current pointer is null or points into the list. -/
theorem updateLoop_winv (m : MathOps) (dt : ℚ) :
    ∀ (fuel : ℕ) (popt : Option ℕ) (s : SysState) (L : List ℕ),
      WInv s L →
      (popt = none ∨ ∃ p A B, popt = some p ∧ L = A ++ p :: B) →
      ∃ L', WInv (updateLoop m dt fuel popt s) L' := by
  intro fuel
  induction fuel with
  | zero =>
    intro popt s L h _
    exact ⟨L, h⟩
  | succ n ih =>
    intro popt s L h hpos
    cases popt with
    | none => exact ⟨L, h⟩
    | some p =>
      rcases hpos with hnone | ⟨p', A, B, hpeq, hLeq⟩
      · exact Option.noConfusion hnone
      have hpp : p = p' := by injection hpeq
      subst hpp
      subst hLeq
      obtain ⟨hseg, hhd, htl, hnd, hlt, hlen, hcnt, hcap⟩ := h
      have hpL : p ∈ A ++ p :: B := by simp
      have hiA : ∀ n' ∈ A, n' ≠ p := by
        intro n' hn' he
        exact (List.nodup_append.mp hnd).2.2 (he ▸ hn') (by simp)
      have hiB : ∀ n' ∈ B, n' ≠ p := by
        intro n' hn' he
        exact (List.nodup_cons.mp (List.nodup_append.mp hnd).2.1).1 (he ▸ hn')
      -- the life decrement changes only a non-link field of node `p`
      have hseg1 : dseg (setMem s.mem p { s.mem p with life := (s.mem p).life - dt })
          none (A ++ p :: B) none := by
        refine dseg_congr ?_ hseg
        intro n' hn'
        by_cases hnp : n' = p
        · subst hnp
          simp
        · simp [setMem_other hnp]
      -- the next pointer stored in node p
      have hnextp : (s.mem p).next = nextOf B none := by
        have := hseg
        rw [dseg_append, dseg_cons] at this
        exact this.2.2.1
      simp only [updateLoop, setMem_same]
      by_cases hlife : (s.mem p).life - dt ≤ 0
      · rw [if_pos hlife]
        set s1 : SysState :=
          { s with mem := setMem s.mem p { s.mem p with life := (s.mem p).life - dt } }
          with hs1
        have hW1 : WInv s1 (A ++ p :: B) :=
          ⟨hseg1, hhd, htl, hnd, hlt, hlen, hcnt, hcap⟩
        obtain ⟨hr1, hr2, hr3, hr4, hr5, hr6, hr7, hr8, hr9, hr10, hr11, hr12, hr13⟩ :=
          removeParticle_spec (s := s1) (A := A) (B := B) (p := p)
            hW1.1 hW1.2.1 hW1.2.2.1 hW1.2.2.2.1 hW1.2.2.2.2.1 hW1.2.2.2.2.2.1
        refine ih (removeParticle p s1).1 (removeParticle p s1).2
          ((A ++ B).map (relabel (s1.free - 1) p)) ?_ ?_
        · refine ⟨hr2, hr3, hr4, hr6, hr7, hr8, ?_, ?_⟩
          · rw [hr10, hr9]
            show s.activeParticles - 1 = s.free - 1
            omega
          · rw [hr9, hr11]
            show s.free - 1 ≤ s.maxParticles
            omega
        · rw [hr1]
          cases B with
          | nil => exact Or.inl rfl
          | cons b B' =>
            right
            refine ⟨relabel (s1.free - 1) p b, A.map (relabel (s1.free - 1) p),
              B'.map (relabel (s1.free - 1) p), rfl, ?_⟩
            simp
      · rw [if_neg hlife]
        set q0 : Particle := { s.mem p with life := (s.mem p).life - dt } with hq0
        set s1 : SysState := { s with mem := setMem s.mem p q0 } with hs1
        set p' : Particle :=
          integrate m dt s1.numQuads s1.sizes s1.colors s1.relativeRotation q0
          with hp'
        have hp'prev : p'.prev = (s.mem p).prev := rfl
        have hp'next : p'.next = (s.mem p).next := rfl
        refine ih p'.next { s1 with mem := setMem s1.mem p p' } (A ++ p :: B) ?_ ?_
        · refine ⟨?_, hhd, htl, hnd, hlt, hlen, hcnt, hcap⟩
          refine dseg_congr ?_ hseg
          intro n' hn'
          by_cases hnp : n' = p
          · subst hnp
            show (setMem (setMem s.mem n' q0) n' p' n').prev = _ ∧
              (setMem (setMem s.mem n' q0) n' p' n').next = _
            rw [setMem_same]
            exact ⟨hp'prev, hp'next⟩
          · show (setMem (setMem s.mem p q0) p p' n').prev = _ ∧
              (setMem (setMem s.mem p q0) p p' n').next = _
            rw [setMem_other hnp, setMem_other hnp]
            exact ⟨rfl, rfl⟩
        · rw [hp'next, hnextp]
          cases B with
          | nil => exact Or.inl rfl
          | cons b B' =>
            right
            exact ⟨b, A ++ [p], B', rfl, by simp⟩

theorem poolFrame_refl {s : SysState} : poolFrame s s :=
  ⟨⟨rfl, rfl, rfl, rfl, rfl, rfl, rfl, rfl⟩, rfl⟩

theorem poolFrame_trans {s₁ s₂ s₃ : SysState}
    (h1 : poolFrame s₁ s₂) (h2 : poolFrame s₂ s₃) : poolFrame s₁ s₃ :=
  ⟨⟨h2.1.1.trans h1.1.1, h2.1.2.1.trans h1.1.2.1, h2.1.2.2.1.trans h1.1.2.2.1,
    h2.1.2.2.2.1.trans h1.1.2.2.2.1, h2.1.2.2.2.2.1.trans h1.1.2.2.2.2.1,
    h2.1.2.2.2.2.2.1.trans h1.1.2.2.2.2.2.1,
    h2.1.2.2.2.2.2.2.1.trans h1.1.2.2.2.2.2.2.1,
    h2.1.2.2.2.2.2.2.2.trans h1.1.2.2.2.2.2.2.2⟩,
  h2.2.trans h1.2⟩

theorem insertTop_poolFrame (i : ℕ) (s : SysState) :
    poolFrame s (insertTop i s) := by
  unfold insertTop
  cases s.head with
  | none => exact poolFrame_refl
  | some h0 =>
    cases s.tail with
    | none => exact poolFrame_refl
    | some t0 => exact poolFrame_refl

theorem insertBottom_poolFrame (i : ℕ) (s : SysState) :
    poolFrame s (insertBottom i s) := by
  unfold insertBottom
  cases s.tail with
  | none => exact poolFrame_refl
  | some t0 =>
    cases s.head with
    | none => exact poolFrame_refl
    | some h0 => exact poolFrame_refl

theorem insertRandom_poolFrame (i : ℕ) (s : SysState) :
    poolFrame s (insertRandom i s) := by
  unfold insertRandom
  simp only [RNG.randNat]
  by_cases hp : s.rng.n s.rng.ni % (s.activeParticles + 1) = s.activeParticles
  · rw [if_pos hp]
    cases s.head with
    | none => exact poolFrame_refl
    | some h0 => exact poolFrame_refl
  · rw [if_neg hp]
    cases (s.mem (s.rng.n s.rng.ni % (s.activeParticles + 1))).next with
    | none => exact poolFrame_refl
    | some b => exact poolFrame_refl

theorem addParticle_poolFrame (m : MathOps) (t : ℚ) (s : SysState) :
    poolFrame s (addParticle m t s) := by
  unfold addParticle
  dsimp only
  split
  · exact poolFrame_refl
  · split
    · exact
        let s1 : SysState :=
          { s with free := s.free + 1
                   mem := setMem s.mem s.free (initParticle m s t (s.mem s.free)).1
                   rng := (initParticle m s t (s.mem s.free)).2 }
        let h := insertTop_poolFrame s.free s1
        ⟨⟨h.1.1, h.1.2.1, h.1.2.2.1, h.1.2.2.2.1, h.1.2.2.2.2.1,
          h.1.2.2.2.2.2.1, h.1.2.2.2.2.2.2.1, h.1.2.2.2.2.2.2.2⟩, h.2⟩
    · exact
        let s1 : SysState :=
          { s with free := s.free + 1
                   mem := setMem s.mem s.free (initParticle m s t (s.mem s.free)).1
                   rng := (initParticle m s t (s.mem s.free)).2 }
        let h := insertBottom_poolFrame s.free s1
        ⟨⟨h.1.1, h.1.2.1, h.1.2.2.1, h.1.2.2.2.1, h.1.2.2.2.2.1,
          h.1.2.2.2.2.2.1, h.1.2.2.2.2.2.2.1, h.1.2.2.2.2.2.2.2⟩, h.2⟩
    · exact
        let s1 : SysState :=
          { s with free := s.free + 1
                   mem := setMem s.mem s.free (initParticle m s t (s.mem s.free)).1
                   rng := (initParticle m s t (s.mem s.free)).2 }
        let h := insertRandom_poolFrame s.free s1
        ⟨⟨h.1.1, h.1.2.1, h.1.2.2.1, h.1.2.2.2.1, h.1.2.2.2.2.1,
          h.1.2.2.2.2.2.1, h.1.2.2.2.2.2.2.1, h.1.2.2.2.2.2.2.2⟩, h.2⟩

theorem unlinkParticle_poolFrame (p : ℕ) (s : SysState) :
    poolFrame s (unlinkParticle p s).2 := by
  unfold unlinkParticle
  dsimp only
  repeat' split
  all_goals exact ⟨⟨rfl, rfl, rfl, rfl, rfl, rfl, rfl, rfl⟩, rfl⟩

theorem compactParticle_poolFrame (p : ℕ) (pNext : Option ℕ) (s : SysState) :
    poolFrame s (compactParticle p pNext s).2 := by
  unfold compactParticle
  dsimp only
  repeat' split
  all_goals exact ⟨⟨rfl, rfl, rfl, rfl, rfl, rfl, rfl, rfl⟩, rfl⟩

theorem removeParticle_poolFrame (p : ℕ) (s : SysState) :
    poolFrame s (removeParticle p s).2 := by
  have h1 := unlinkParticle_poolFrame p s
  have h2 := compactParticle_poolFrame p (unlinkParticle p s).1 (unlinkParticle p s).2
  exact poolFrame_trans h1 h2

theorem updateLoop_poolFrame (m : MathOps) (dt : ℚ) :
    ∀ (fuel : ℕ) (popt : Option ℕ) (s : SysState),
      poolFrame s (updateLoop m dt fuel popt s) := by
  intro fuel
  induction fuel with
  | zero => intro popt s; exact poolFrame_refl
  | succ n ih =>
    intro popt s
    cases popt with
    | none => exact poolFrame_refl
    | some p =>
      simp only [updateLoop, setMem_same]
      by_cases hlife : (s.mem p).life - dt ≤ 0
      · rw [if_pos hlife]
        refine poolFrame_trans ?_ (ih _ _)
        exact removeParticle_poolFrame _ _
      · rw [if_neg hlife]
        exact poolFrame_trans poolFrame_refl (ih _ _)

/-! ### Invariant preservation by the public operations -/

/-- The pool invariant depends only on the pool fields; transporting it
along any state change that leaves them intact. -/
theorem WInv_of_eq_pool {s s' : SysState} {L : List ℕ} (h : WInv s L)
    (hmem : s'.mem = s.mem) (hhd : s'.head = s.head) (htl : s'.tail = s.tail)
    (hfree : s'.free = s.free) (hcnt : s'.activeParticles = s.activeParticles)
    (hmax : s'.maxParticles = s.maxParticles)
    (hmode : s'.insertMode = s.insertMode) : WInv s' L := by
  obtain ⟨h1, h2, h3, h4, h5, h6, h7, h8⟩ := h
  refine ⟨by rw [hmem]; exact h1, by rw [hhd]; exact h2, ?_,
    h4, by rw [hfree]; exact h5, by rw [hfree]; exact h6,
    by rw [hcnt, hfree]; exact h7, by rw [hfree, hmax]; exact h8⟩
  rcases h3 with hstrong | hweak
  · exact Or.inl (by rw [htl]; exact hstrong)
  · exact Or.inr ⟨by rw [hmode]; exact hweak.1, by rw [htl]; exact hweak.2⟩

theorem emitN_winv (m : MathOps) :
    ∀ (n : ℕ) (s : SysState) (L : List ℕ), WInv s L →
      ∃ L', WInv (emitN m n s) L' := by
  intro n
  induction n with
  | zero => intro s L h; exact ⟨L, h⟩
  | succ k ih =>
    intro s L h
    obtain ⟨L₁, h₁, _⟩ := addParticle_winv m 1 h
    exact ih (addParticle m 1 s) L₁ h₁

theorem emit_winv (n : ℕ) (m : MathOps) (s : SysState) (L : List ℕ)
    (h : WInv s L) : ∃ L', WInv (emit n m s) L' := by
  unfold emit
  split
  · exact ⟨L, h⟩
  · exact emitN_winv m _ s L h

theorem emitLoop_winv (m : MathOps) (rate total : ℚ) :
    ∀ (fuel : ℕ) (s : SysState) (L : List ℕ), WInv s L →
      ∃ L', WInv (emitLoop m rate total fuel s) L' := by
  intro fuel
  induction fuel with
  | zero => intro s L h; exact ⟨L, h⟩
  | succ k ih =>
    intro s L h
    simp only [emitLoop]
    split
    · obtain ⟨L₁, h₁, _⟩ := addParticle_winv m (1 - (s.emitCounter - rate) / total) h
      exact ih _ L₁ (WInv_of_eq_pool h₁ rfl rfl rfl rfl rfl rfl rfl)
    · exact ⟨L, h⟩

theorem emissionPhase_winv (m : MathOps) (dt : ℚ) (s : SysState) (L : List ℕ)
    (h : WInv s L) : ∃ L', WInv (emissionPhase m dt s) L' := by
  have h1 : WInv { s with emitCounter := s.emitCounter + dt } L :=
    WInv_of_eq_pool h rfl rfl rfl rfl rfl rfl rfl
  unfold emissionPhase
  dsimp only
  split
  · split
    · split
      · exact ⟨L, WInv_of_eq_pool h rfl rfl rfl rfl rfl rfl rfl⟩
      · split
        · exact ⟨L, WInv_of_eq_pool h rfl rfl rfl rfl rfl rfl rfl⟩
        · exact ⟨L, WInv_of_eq_pool h rfl rfl rfl rfl rfl rfl rfl⟩
    · obtain ⟨L₂, h₂⟩ := emitLoop_winv m (1 / s.emissionRate)
        ((s.emitCounter + dt) - 1 / s.emissionRate)
        (emitFuel (s.emitCounter + dt) (1 / s.emissionRate))
        { s with emitCounter := s.emitCounter + dt } L h1
      split
      · exact ⟨L₂, WInv_of_eq_pool h₂ rfl rfl rfl rfl rfl rfl rfl⟩
      · split
        · exact ⟨L₂, WInv_of_eq_pool h₂ rfl rfl rfl rfl rfl rfl rfl⟩
        · exact ⟨L₂, WInv_of_eq_pool h₂ rfl rfl rfl rfl rfl rfl rfl⟩
  · exact ⟨L, h⟩

theorem update_winv (m : MathOps) (dt : ℚ) (s : SysState) (L : List ℕ)
    (h : WInv s L) : ∃ L', WInv (update m dt s) L' := by
  unfold update
  dsimp only
  split
  · exact ⟨L, h⟩
  · have hpos : s.head = none ∨ ∃ p A B, s.head = some p ∧ L = A ++ p :: B := by
      have hhd := h.2.1
      cases L with
      | nil => exact Or.inl (by rw [hhd]; rfl)
      | cons a L' => exact Or.inr ⟨a, [], L', by rw [hhd]; rfl, rfl⟩
    obtain ⟨L₁, h₁⟩ := updateLoop_winv m dt s.activeParticles s.head s L h hpos
    obtain ⟨L₂, h₂⟩ := emissionPhase_winv m dt _ L₁ h₁
    exact ⟨L₂, WInv_of_eq_pool h₂ rfl rfl rfl rfl rfl rfl rfl⟩

theorem reset_winv (s : SysState) : WInv (reset s) [] := by
  refine ⟨by simp, rfl, Or.inl rfl, by simp, by simp, rfl, rfl, ?_⟩
  show 0 ≤ s.maxParticles
  omega

/-- Every reachable state satisfies the pool invariant. -/
theorem Reach.inv {s : SysState} (h : Reach s) : Inv s := by
  induction h with
  | init s hfree hhd htl hcnt =>
    refine ⟨[], by simp, by rw [hhd]; rfl, Or.inl (by rw [htl]; rfl),
      by simp, by simp, by rw [hfree]; rfl, by rw [hcnt, hfree], by omega⟩
  | emit n m _ ih =>
    obtain ⟨L, hL⟩ := ih
    exact emit_winv n m _ L hL
  | update m dt _ ih =>
    obtain ⟨L, hL⟩ := ih
    exact update_winv m dt _ L hL
  | start _ ih =>
    obtain ⟨L, hL⟩ := ih
    exact ⟨L, WInv_of_eq_pool hL rfl rfl rfl rfl rfl rfl rfl⟩
  | stop _ ih =>
    obtain ⟨L, hL⟩ := ih
    exact ⟨L, WInv_of_eq_pool hL rfl rfl rfl rfl rfl rfl rfl⟩
  | pause _ ih =>
    obtain ⟨L, hL⟩ := ih
    exact ⟨L, WInv_of_eq_pool hL rfl rfl rfl rfl rfl rfl rfl⟩
  | reset _ _ =>
    exact ⟨[], reset_winv _⟩

/-! ### Emission-phase lemmas -/

theorem cfgFrame_refl {s : SysState} : cfgFrame s s :=
  ⟨rfl, rfl, rfl, rfl, rfl, rfl, rfl, rfl⟩

theorem cfgFrame_trans {s₁ s₂ s₃ : SysState}
    (h1 : cfgFrame s₁ s₂) (h2 : cfgFrame s₂ s₃) : cfgFrame s₁ s₃ :=
  ⟨h2.1.trans h1.1, h2.2.1.trans h1.2.1, h2.2.2.1.trans h1.2.2.1,
    h2.2.2.2.1.trans h1.2.2.2.1, h2.2.2.2.2.1.trans h1.2.2.2.2.1,
    h2.2.2.2.2.2.1.trans h1.2.2.2.2.2.1,
    h2.2.2.2.2.2.2.1.trans h1.2.2.2.2.2.2.1,
    h2.2.2.2.2.2.2.2.trans h1.2.2.2.2.2.2.2⟩

/-- The spawn loop changes only the pool and the accumulator: the emitter
flags, lifetimes and configuration stay put. -/
theorem emitLoop_cfgFrame (m : MathOps) (rate total : ℚ) :
    ∀ (fuel : ℕ) (s : SysState), cfgFrame s (emitLoop m rate total fuel s) := by
  intro fuel
  induction fuel with
  | zero => intro s; exact cfgFrame_refl
  | succ k ih =>
    intro s
    simp only [emitLoop]
    split
    · refine cfgFrame_trans ?_ (ih _)
      have h := (addParticle_poolFrame m (1 - (s.emitCounter - rate) / total) s).1
      exact ⟨h.1, h.2.1, h.2.2.1, h.2.2.2.1, h.2.2.2.2.1, h.2.2.2.2.2.1,
        h.2.2.2.2.2.2.1, h.2.2.2.2.2.2.2⟩
    · exact cfgFrame_refl

/-- `removeParticle` decrements the active count by one, whatever the
state. -/
theorem removeParticle_count (p : ℕ) (s : SysState) :
    (removeParticle p s).2.activeParticles = s.activeParticles - 1 := by
  have h1 : (unlinkParticle p s).2.activeParticles = s.activeParticles := by
    unfold unlinkParticle
    dsimp only
    repeat' split
    all_goals rfl
  have h2 : ∀ (pN : Option ℕ) (s' : SysState),
      (compactParticle p pN s').2.activeParticles = s'.activeParticles - 1 := by
    intro pN s'
    unfold compactParticle
    dsimp only
    repeat' split
    all_goals rfl
  show (compactParticle p (unlinkParticle p s).1 (unlinkParticle p s).2).2.activeParticles = _
  rw [h2, h1]

/-- The traversal loop never adds particles. -/
theorem updateLoop_count_le (m : MathOps) (dt : ℚ) :
    ∀ (fuel : ℕ) (popt : Option ℕ) (s : SysState),
      (updateLoop m dt fuel popt s).activeParticles ≤ s.activeParticles := by
  intro fuel
  induction fuel with
  | zero => intro popt s; exact le_refl _
  | succ n ih =>
    intro popt s
    cases popt with
    | none => exact le_refl _
    | some p =>
      simp only [updateLoop, setMem_same]
      split
      · refine le_trans (ih _ _) ?_
        rw [removeParticle_count]
        exact Nat.sub_le _ _
      · exact ih _ _

/-- With the emitter active and a zero emission rate, the emission phase
only accumulates `dt` and steps the emitter's own lifetime: the float
division `1.0f / 0.0f` yields positive infinity, so the spawn loop's
strict comparison never fires (no particle spawned, no trap). -/
theorem emissionPhase_rate0 (m : MathOps) (dt : ℚ) (s : SysState)
    (ha : s.active = true) (hr : s.emissionRate = 0) :
    emissionPhase m dt s =
      (let s1 : SysState :=
        { s with emitCounter := s.emitCounter + dt, life := s.life - dt }
       if s.lifetime = -1 then s1
       else if s.life - dt < 0 then stop s1
       else s1) := by
  unfold emissionPhase
  dsimp only
  rw [if_pos ha, if_pos hr]

/-- With the emitter active and a nonzero emission rate, the emission
phase runs the spawn loop and then steps the emitter's own lifetime. -/
theorem emissionPhase_rate_ne0 (m : MathOps) (dt : ℚ) (s : SysState)
    (ha : s.active = true) (hr : ¬s.emissionRate = 0) :
    emissionPhase m dt s =
      (let s2 : SysState :=
        emitLoop m (1 / s.emissionRate) ((s.emitCounter + dt) - 1 / s.emissionRate)
          (emitFuel (s.emitCounter + dt) (1 / s.emissionRate))
          { s with emitCounter := s.emitCounter + dt }
       let s3 : SysState := { s2 with life := s2.life - dt }
       if s3.lifetime = -1 then s3
       else if s3.life < 0 then stop s3
       else s3) := by
  unfold emissionPhase
  dsimp only
  rw [if_pos ha, if_neg hr]

/-- The emitter's own lifetime countdown inside the emission phase: the
remaining life is decremented by `dt` unconditionally; the automatic
transition to the stopped state occurs exactly when the configured
lifetime is finite and the decremented life went negative. -/
theorem emissionPhase_emitter (m : MathOps) (dt : ℚ) (s : SysState)
    (ha : s.active = true) :
    (emissionPhase m dt s).lifetime = s.lifetime ∧
    ((s.lifetime ≠ -1 ∧ s.life - dt < 0) →
      (emissionPhase m dt s).active = false ∧
      (emissionPhase m dt s).life = s.lifetime ∧
      (emissionPhase m dt s).emitCounter = 0) ∧
    (¬(s.lifetime ≠ -1 ∧ s.life - dt < 0) →
      (emissionPhase m dt s).life = s.life - dt ∧
      (emissionPhase m dt s).active = true) := by
  by_cases hr : s.emissionRate = 0
  · rw [emissionPhase_rate0 m dt s ha hr]
    dsimp only
    by_cases hinf : s.lifetime = -1
    · rw [if_pos hinf]
      refine ⟨rfl, ?_, ?_⟩
      · intro hcon
        exact absurd hinf hcon.1
      · intro _
        exact ⟨rfl, ha⟩
    · rw [if_neg hinf]
      by_cases hneg : s.life - dt < 0
      · rw [if_pos hneg]
        refine ⟨rfl, ?_, ?_⟩
        · intro _
          exact ⟨rfl, rfl, rfl⟩
        · intro hcon
          exact absurd ⟨hinf, hneg⟩ hcon
      · rw [if_neg hneg]
        refine ⟨rfl, ?_, ?_⟩
        · intro hcon
          exact absurd hcon.2 hneg
        · intro _
          exact ⟨rfl, ha⟩
  · rw [emissionPhase_rate_ne0 m dt s ha hr]
    dsimp only
    have hcf := emitLoop_cfgFrame m (1 / s.emissionRate)
      ((s.emitCounter + dt) - 1 / s.emissionRate)
      (emitFuel (s.emitCounter + dt) (1 / s.emissionRate))
      { s with emitCounter := s.emitCounter + dt }
    set s2 := emitLoop m (1 / s.emissionRate) ((s.emitCounter + dt) - 1 / s.emissionRate)
      (emitFuel (s.emitCounter + dt) (1 / s.emissionRate))
      { s with emitCounter := s.emitCounter + dt } with hs2
    have hact : s2.active = s.active := hcf.1
    have hlife : s2.life = s.life := hcf.2.1
    have hlt : s2.lifetime = s.lifetime := hcf.2.2.1
    by_cases hinf : s.lifetime = -1
    · rw [if_pos (show ({ s2 with life := s2.life - dt } : SysState).lifetime = -1 by
        rw [show ({ s2 with life := s2.life - dt } : SysState).lifetime = s2.lifetime from rfl, hlt]
        exact hinf)]
      refine ⟨by rw [show ({ s2 with life := s2.life - dt } : SysState).lifetime = s2.lifetime from rfl, hlt],
        ?_, ?_⟩
      · intro hcon
        exact absurd hinf hcon.1
      · intro _
        constructor
        · show s2.life - dt = s.life - dt
          rw [hlife]
        · show s2.active = true
          rw [hact]
          exact ha
    · rw [if_neg (show ¬({ s2 with life := s2.life - dt } : SysState).lifetime = -1 by
        rw [show ({ s2 with life := s2.life - dt } : SysState).lifetime = s2.lifetime from rfl, hlt]
        exact hinf)]
      by_cases hneg : s.life - dt < 0
      · rw [if_pos (show ({ s2 with life := s2.life - dt } : SysState).life < 0 by
          show s2.life - dt < 0
          rw [hlife]
          exact hneg)]
        refine ⟨by show s2.lifetime = s.lifetime; rw [hlt], ?_, ?_⟩
        · intro _
          refine ⟨rfl, ?_, rfl⟩
          show s2.lifetime = s.lifetime
          rw [hlt]
        · intro hcon
          exact absurd ⟨hinf, hneg⟩ hcon
      · rw [if_neg (show ¬({ s2 with life := s2.life - dt } : SysState).life < 0 by
          show ¬s2.life - dt < 0
          rw [hlife]
          exact hneg)]
        refine ⟨by show s2.lifetime = s.lifetime; rw [hlt], ?_, ?_⟩
        · intro hcon
          exact absurd hcon.2 hneg
        · intro _
          constructor
          · show s2.life - dt = s.life - dt
            rw [hlife]
          · show s2.active = true
            rw [hact]
            exact ha

/-! ### Spawn-counting lemmas (for the emission-count scenario) -/

/-- With equal lifetime bounds the fresh particle's life is exactly that
bound (no random draw happens). -/
theorem initParticle_life (m : MathOps) (s : SysState) (t : ℚ) (old : Particle)
    (h : s.particleLifeMin = s.particleLifeMax) :
    ((initParticle m s t old).1).life = s.particleLifeMin := by
  unfold initParticle
  simp only [RNG.random2, RNG.random1, RNG.random, RNG.randomNormal, calcVariation]
  rw [if_pos h]

/-- `integrate` does not touch the lifespan field. -/
theorem integrate_life (m : MathOps) (dt : ℚ) (nq : ℕ) (sz : List ℚ)
    (cl : List Colorf) (rr : Bool) (p : Particle) :
    (integrate m dt nq sz cl rr p).life = p.life := rfl

theorem insertTop_payload (i j : ℕ) (s : SysState) :
    ((insertTop i s).mem j).payload = (s.mem j).payload := by
  unfold insertTop
  cases s.head with
  | none => rw [payload_setNext, payload_setPrev]
  | some h0 =>
    cases s.tail with
    | none => rfl
    | some t0 => rw [payload_setNext, payload_setPrev, payload_setNext]

theorem insertBottom_payload (i j : ℕ) (s : SysState) :
    ((insertBottom i s).mem j).payload = (s.mem j).payload := by
  unfold insertBottom
  cases s.tail with
  | none => rw [payload_setPrev, payload_setNext]
  | some t0 =>
    cases s.head with
    | none => rfl
    | some h0 => rw [payload_setPrev, payload_setNext, payload_setPrev]

theorem insertRandom_payload (i j : ℕ) (s : SysState) :
    ((insertRandom i s).mem j).payload = (s.mem j).payload := by
  unfold insertRandom
  simp only [RNG.randNat]
  by_cases hp : s.rng.n s.rng.ni % (s.activeParticles + 1) = s.activeParticles
  · rw [if_pos hp]
    cases s.head with
    | none => rw [payload_setNext, payload_setPrev]
    | some h0 => rw [payload_setNext, payload_setPrev, payload_setPrev]
  · rw [if_neg hp]
    cases (s.mem (s.rng.n s.rng.ni % (s.activeParticles + 1))).next with
    | none => rw [payload_setNext, payload_setPrev, payload_setNext]
    | some b => rw [payload_setNext, payload_setPrev, payload_setPrev, payload_setNext]

/-- When the pool is not full, `addParticle` bumps the count and the free
boundary, fills the slot at the old boundary with a fresh particle whose
life is the configured value (for equal bounds), and leaves every other
slot's non-link fields alone. -/
theorem addParticle_effect (m : MathOps) (t : ℚ) (s : SysState)
    (hnf : ¬s.activeParticles = s.maxParticles)
    (hmm : s.particleLifeMin = s.particleLifeMax) :
    (addParticle m t s).activeParticles = s.activeParticles + 1 ∧
    (addParticle m t s).free = s.free + 1 ∧
    ((addParticle m t s).mem s.free).life = s.particleLifeMin ∧
    (∀ j, j ≠ s.free → ((addParticle m t s).mem j).life = (s.mem j).life) := by
  have hfull : ¬isFull s = true := by
    simp [isFull]
    exact hnf
  have hred : addParticle m t s =
      (let s1 : SysState :=
        { s with free := s.free + 1
                 mem := setMem s.mem s.free (initParticle m s t (s.mem s.free)).1
                 rng := (initParticle m s t (s.mem s.free)).2 }
       let s2 : SysState :=
         match s.insertMode with
         | .top => insertTop s.free s1
         | .bottom => insertBottom s.free s1
         | .random => insertRandom s.free s1
       { s2 with activeParticles := s2.activeParticles + 1 }) := by
    unfold addParticle
    rw [if_neg hfull]
  rw [hred]
  set s1 : SysState :=
    { s with free := s.free + 1
             mem := setMem s.mem s.free (initParticle m s t (s.mem s.free)).1
             rng := (initParticle m s t (s.mem s.free)).2 } with hs1
  have hlife1 : (s1.mem s.free).life = s.particleLifeMin := by
    show ((setMem s.mem s.free (initParticle m s t (s.mem s.free)).1) s.free).life = _
    rw [setMem_same]
    exact initParticle_life m s t _ hmm
  have hlifeo : ∀ j, j ≠ s.free → (s1.mem j).life = (s.mem j).life := by
    intro j hj
    show ((setMem s.mem s.free (initParticle m s t (s.mem s.free)).1) j).life = _
    rw [setMem_other hj]
  cases hmode : s.insertMode with
  | top =>
    simp only [hmode]
    have hfr := insertTop_frame s.free s1
    refine ⟨?_, ?_, ?_, ?_⟩
    · show (insertTop s.free s1).activeParticles + 1 = _
      rw [hfr.2.1]
    · show (insertTop s.free s1).free = _
      rw [hfr.1]
    · show ((insertTop s.free s1).mem s.free).life = _
      have := congrArg Particle.life (insertTop_payload s.free s.free s1)
      simp only [Particle.payload] at this
      rw [this]
      exact hlife1
    · intro j hj
      show ((insertTop s.free s1).mem j).life = _
      have := congrArg Particle.life (insertTop_payload s.free j s1)
      simp only [Particle.payload] at this
      rw [this]
      exact hlifeo j hj
  | bottom =>
    simp only [hmode]
    have hfr := insertBottom_frame s.free s1
    refine ⟨?_, ?_, ?_, ?_⟩
    · show (insertBottom s.free s1).activeParticles + 1 = _
      rw [hfr.2.1]
    · show (insertBottom s.free s1).free = _
      rw [hfr.1]
    · show ((insertBottom s.free s1).mem s.free).life = _
      have := congrArg Particle.life (insertBottom_payload s.free s.free s1)
      simp only [Particle.payload] at this
      rw [this]
      exact hlife1
    · intro j hj
      show ((insertBottom s.free s1).mem j).life = _
      have := congrArg Particle.life (insertBottom_payload s.free j s1)
      simp only [Particle.payload] at this
      rw [this]
      exact hlifeo j hj
  | random =>
    simp only [hmode]
    have hfr := insertRandom_frame s.free s1
    refine ⟨?_, ?_, ?_, ?_⟩
    · show (insertRandom s.free s1).activeParticles + 1 = _
      rw [hfr.2.1]
    · show (insertRandom s.free s1).free = _
      rw [hfr.1]
    · show ((insertRandom s.free s1).mem s.free).life = _
      have := congrArg Particle.life (insertRandom_payload s.free s.free s1)
      simp only [Particle.payload] at this
      rw [this]
      exact hlife1
    · intro j hj
      show ((insertRandom s.free s1).mem j).life = _
      have := congrArg Particle.life (insertRandom_payload s.free j s1)
      simp only [Particle.payload] at this
      rw [this]
      exact hlifeo j hj

/-- A traversal pass in which every particle outlives the tick: nothing
is removed, each listed particle's life just drops by `dt`. -/
theorem updateLoop_alive (m : MathOps) (dt : ℚ) (Bd : ℚ) (hBd : dt < Bd) :
    ∀ (fuel : ℕ) (A Br : List ℕ) (s : SysState),
      WInv s (A ++ Br) →
      Br.length ≤ fuel →
      (∀ i ∈ A, Bd - dt ≤ (s.mem i).life) →
      (∀ i ∈ Br, Bd ≤ (s.mem i).life) →
      (updateLoop m dt fuel (nextOf Br none) s).activeParticles = s.activeParticles ∧
      (updateLoop m dt fuel (nextOf Br none) s).free = s.free ∧
      WInv (updateLoop m dt fuel (nextOf Br none) s) (A ++ Br) ∧
      (∀ i ∈ A ++ Br, Bd - dt ≤ ((updateLoop m dt fuel (nextOf Br none) s).mem i).life) := by
  intro fuel
  induction fuel with
  | zero =>
    intro A Br s h hfuel hA hB
    have hBr : Br = [] := List.length_eq_zero.mp (Nat.le_zero.mp hfuel)
    subst hBr
    exact ⟨rfl, rfl, h, by simpa using hA⟩
  | succ n ih =>
    intro A Br s h hfuel hA hB
    cases Br with
    | nil =>
      exact ⟨rfl, rfl, h, by simpa using hA⟩
    | cons p Br' =>
      obtain ⟨hseg, hhd, htl, hnd, hlt, hlen, hcnt, hcap⟩ := h
      have hlife : Bd ≤ (s.mem p).life := hB p (by simp)
      have hsurv : ¬((s.mem p).life - dt ≤ 0) := by
        intro hcon
        have : Bd - dt ≤ 0 := by linarith
        linarith
      have hnextp : (s.mem p).next = nextOf Br' none := by
        have := hseg
        rw [dseg_append, dseg_cons] at this
        exact this.2.2.1
      show (updateLoop m dt (n + 1) (some p) s).activeParticles = _ ∧ _
      simp only [updateLoop, setMem_same]
      rw [if_neg hsurv]
      set q0 : Particle := { s.mem p with life := (s.mem p).life - dt } with hq0
      set s1 : SysState := { s with mem := setMem s.mem p q0 } with hs1
      set p' : Particle :=
        integrate m dt s1.numQuads s1.sizes s1.colors s1.relativeRotation q0
        with hp'
      set s2 : SysState := { s1 with mem := setMem s1.mem p p' } with hs2
      have hmemp : s2.mem p = p' := by
        show setMem s1.mem p p' p = p'
        rw [setMem_same]
      have hmemo : ∀ j, j ≠ p → s2.mem j = s.mem j := by
        intro j hj
        show setMem s1.mem p p' j = _
        rw [setMem_other hj]
        show setMem s.mem p q0 j = _
        rw [setMem_other hj]
      have hplifenew : (s2.mem p).life = (s.mem p).life - dt := by
        rw [hmemp]
        show (integrate _ _ _ _ _ _ q0).life = _
        rw [integrate_life]
      have hpA : p ∉ A := by
        intro hmem
        exact (List.nodup_append.mp hnd).2.2 hmem (by simp)
      have hpB : p ∉ Br' :=
        (List.nodup_cons.mp (List.nodup_append.mp hnd).2.1).1
      have hW2 : WInv s2 (A ++ p :: Br') := by
        refine ⟨?_, hhd, htl, hnd, hlt, hlen, hcnt, hcap⟩
        refine dseg_congr ?_ hseg
        intro n' hn'
        by_cases hnp : n' = p
        · subst hnp
          rw [hmemp]
          exact ⟨rfl, rfl⟩
        · rw [hmemo n' hnp]
          exact ⟨rfl, rfl⟩
      have hnext2 : p'.next = nextOf Br' none := by
        show ((s.mem p).next : Option ℕ) = _
        exact hnextp
      have := ih (A ++ [p]) Br' s2
        (by rw [List.append_assoc, List.singleton_append]; exact hW2)
        (by simpa using hfuel)
        (by
          intro i hi
          rcases List.mem_append.mp hi with hiA | hip
          · rw [hmemo i (fun hc => hpA (hc ▸ hiA))]
            exact hA i hiA
          · have : i = p := by simpa using hip
            subst this
            rw [hplifenew]
            linarith [hB i (by simp)])
        (by
          intro i hi
          rw [hmemo i (fun hc => hpB (hc ▸ hi))]
          exact hB i (by simp [hi]))
      rw [hnext2]
      refine ⟨this.1.trans rfl, this.2.1.trans rfl, ?_, ?_⟩
      · have hw := this.2.2.1
        rw [List.append_assoc, List.singleton_append] at hw
        exact hw
      · intro i hi
        have := this.2.2.2 i (by
          rw [List.append_assoc, List.singleton_append]
          exact hi)
        exact this

/-- When the accumulator does not exceed the interval, the spawn loop does
nothing. -/
theorem emitLoop_no_spawn (m : MathOps) (rate total : ℚ) (fuel : ℕ)
    (s : SysState) (h : ¬rate < s.emitCounter) :
    emitLoop m rate total fuel s = s := by
  cases fuel with
  | zero => rfl
  | succ n =>
    simp only [emitLoop]
    rw [if_neg h]

/-- One pass of the spawn loop with `emitCounter = 2/10` against the
interval `1/10`: exactly one particle is spawned and the accumulator
drops back to `1/10`. -/
theorem emitLoop_one_spawn (m : MathOps) (s : SysState)
    (hec : s.emitCounter = 2/10)
    (hfr : (addParticle m (1 - (s.emitCounter - 1/10) / (1/10)) s).emitCounter
      = s.emitCounter) :
    emitLoop m (1/10) (1/10) 3 s =
      { addParticle m (1 - (s.emitCounter - 1/10) / (1/10)) s with
        emitCounter :=
          (addParticle m (1 - (s.emitCounter - 1/10) / (1/10)) s).emitCounter
            - 1/10 } := by
  have h1 : (1 : ℚ)/10 < s.emitCounter := by rw [hec]; norm_num
  show emitLoop m (1/10) (1/10) (2 + 1) s = _
  simp only [emitLoop]
  rw [if_pos h1]
  rw [if_neg (by
    show ¬(1 : ℚ)/10 <
      ({ addParticle m (1 - (s.emitCounter - 1/10) / (1/10)) s with
          emitCounter :=
            (addParticle m (1 - (s.emitCounter - 1/10) / (1/10)) s).emitCounter
              - 1/10 } : SysState).emitCounter
    show ¬(1 : ℚ)/10 <
      (addParticle m (1 - (s.emitCounter - 1/10) / (1/10)) s).emitCounter - 1/10
    rw [hfr, hec]
    norm_num)]

theorem lifeCfgFrame_refl {s : SysState} : lifeCfgFrame s s := ⟨rfl, rfl⟩

theorem lifeCfgFrame_trans {s₁ s₂ s₃ : SysState}
    (h1 : lifeCfgFrame s₁ s₂) (h2 : lifeCfgFrame s₂ s₃) : lifeCfgFrame s₁ s₃ :=
  ⟨h2.1.trans h1.1, h2.2.trans h1.2⟩

theorem insertTop_lifeCfg (i : ℕ) (s : SysState) :
    lifeCfgFrame s (insertTop i s) := by
  unfold insertTop
  cases s.head with
  | none => exact ⟨rfl, rfl⟩
  | some h0 =>
    cases s.tail with
    | none => exact ⟨rfl, rfl⟩
    | some t0 => exact ⟨rfl, rfl⟩

theorem insertBottom_lifeCfg (i : ℕ) (s : SysState) :
    lifeCfgFrame s (insertBottom i s) := by
  unfold insertBottom
  cases s.tail with
  | none => exact ⟨rfl, rfl⟩
  | some t0 =>
    cases s.head with
    | none => exact ⟨rfl, rfl⟩
    | some h0 => exact ⟨rfl, rfl⟩

theorem insertRandom_lifeCfg (i : ℕ) (s : SysState) :
    lifeCfgFrame s (insertRandom i s) := by
  unfold insertRandom
  simp only [RNG.randNat]
  by_cases hp : s.rng.n s.rng.ni % (s.activeParticles + 1) = s.activeParticles
  · rw [if_pos hp]
    cases s.head with
    | none => exact ⟨rfl, rfl⟩
    | some h0 => exact ⟨rfl, rfl⟩
  · rw [if_neg hp]
    cases (s.mem (s.rng.n s.rng.ni % (s.activeParticles + 1))).next with
    | none => exact ⟨rfl, rfl⟩
    | some b => exact ⟨rfl, rfl⟩

theorem addParticle_lifeCfg (m : MathOps) (t : ℚ) (s : SysState) :
    lifeCfgFrame s (addParticle m t s) := by
  unfold addParticle
  dsimp only
  split
  · exact ⟨rfl, rfl⟩
  · split
    · exact
        let s1 : SysState :=
          { s with free := s.free + 1
                   mem := setMem s.mem s.free (initParticle m s t (s.mem s.free)).1
                   rng := (initParticle m s t (s.mem s.free)).2 }
        let h := insertTop_lifeCfg s.free s1
        ⟨h.1, h.2⟩
    · exact
        let s1 : SysState :=
          { s with free := s.free + 1
                   mem := setMem s.mem s.free (initParticle m s t (s.mem s.free)).1
                   rng := (initParticle m s t (s.mem s.free)).2 }
        let h := insertBottom_lifeCfg s.free s1
        ⟨h.1, h.2⟩
    · exact
        let s1 : SysState :=
          { s with free := s.free + 1
                   mem := setMem s.mem s.free (initParticle m s t (s.mem s.free)).1
                   rng := (initParticle m s t (s.mem s.free)).2 }
        let h := insertRandom_lifeCfg s.free s1
        ⟨h.1, h.2⟩

theorem unlinkParticle_lifeCfg (p : ℕ) (s : SysState) :
    lifeCfgFrame s (unlinkParticle p s).2 := by
  unfold unlinkParticle
  dsimp only
  repeat' split
  all_goals exact ⟨rfl, rfl⟩

theorem compactParticle_lifeCfg (p : ℕ) (pNext : Option ℕ) (s : SysState) :
    lifeCfgFrame s (compactParticle p pNext s).2 := by
  unfold compactParticle
  dsimp only
  repeat' split
  all_goals exact ⟨rfl, rfl⟩

theorem removeParticle_lifeCfg (p : ℕ) (s : SysState) :
    lifeCfgFrame s (removeParticle p s).2 :=
  lifeCfgFrame_trans (unlinkParticle_lifeCfg p s)
    (compactParticle_lifeCfg p (unlinkParticle p s).1 (unlinkParticle p s).2)

theorem updateLoop_lifeCfg (m : MathOps) (dt : ℚ) :
    ∀ (fuel : ℕ) (popt : Option ℕ) (s : SysState),
      lifeCfgFrame s (updateLoop m dt fuel popt s) := by
  intro fuel
  induction fuel with
  | zero => intro popt s; exact lifeCfgFrame_refl
  | succ n ih =>
    intro popt s
    cases popt with
    | none => exact lifeCfgFrame_refl
    | some p =>
      simp only [updateLoop, setMem_same]
      by_cases hlife : (s.mem p).life - dt ≤ 0
      · rw [if_pos hlife]
        refine lifeCfgFrame_trans ?_ (ih _ _)
        exact removeParticle_lifeCfg _ _
      · rw [if_neg hlife]
        exact lifeCfgFrame_trans lifeCfgFrame_refl (ih _ _)

/-- One steady-state tick of the emission-count scenario: every pooled
particle survives (it has far more life than `dt`), the accumulator goes
`1/10 → 2/10`, exactly one particle spawns, and the accumulator returns
to `1/10`. -/
theorem C3_step (m : MathOps) (s : SysState) (B : ℚ) (c : ℕ)
    (h : C3Mid B c s) (hc : c < 16) (hB1 : 1/10 < B) (hB2 : B ≤ 1000) :
    C3Mid (B - 1/10) (c + 1) (update m (1/10) s) := by
  obtain ⟨⟨L, hW, hLife⟩, hcnt, hec, hact, hrate, hlt, hmin, hmax, hmaxp⟩ := h
  have hhd : s.head = nextOf L none := hW.2.1
  have hlen : L.length = s.activeParticles :=
    hW.2.2.2.2.2.1.trans hW.2.2.2.2.2.2.1.symm
  have halive := updateLoop_alive m (1/10) B hB1 s.activeParticles [] L s
    (by simpa using hW) (le_of_eq hlen)
    (fun i hi => absurd hi (List.not_mem_nil i)) hLife
  rw [← hhd] at halive
  set s1 : SysState := updateLoop m (1/10) s.activeParticles s.head s with hs1def
  have hpf1 : poolFrame s s1 := updateLoop_poolFrame m (1/10) s.activeParticles s.head s
  have hlc1 : lifeCfgFrame s s1 := updateLoop_lifeCfg m (1/10) s.activeParticles s.head s
  have hact1 : s1.active = true := hpf1.1.1.trans hact
  have hrate1 : s1.emissionRate = 10 := hpf1.1.2.2.2.1.trans hrate
  have hec1 : s1.emitCounter = 1/10 := hpf1.2.trans hec
  have hlt1 : s1.lifetime = -1 := hpf1.1.2.2.1.trans hlt
  have hmin1 : s1.particleLifeMin = 1000 := hlc1.1.trans hmin
  have hmax1 : s1.particleLifeMax = 1000 := hlc1.2.trans hmax
  have hmaxp1 : s1.maxParticles = 16 := hpf1.1.2.2.2.2.2.2.1.trans hmaxp
  have hW1 : WInv s1 L := halive.2.2.1
  have hrne : ¬s1.emissionRate = 0 := by rw [hrate1]; norm_num
  have hep := emissionPhase_rate_ne0 m (1/10) s1 hact1 hrne
  dsimp only at hep
  set smid : SysState := { s1 with emitCounter := s1.emitCounter + 1/10 } with hsmiddef
  have hWmid : WInv smid L := WInv_of_eq_pool hW1 rfl rfl rfl rfl rfl rfl rfl
  have hecmid : smid.emitCounter = 2/10 := by
    show s1.emitCounter + 1/10 = 2/10
    rw [hec1]; norm_num
  have hmmmid : smid.particleLifeMin = smid.particleLifeMax := by
    show s1.particleLifeMin = s1.particleLifeMax
    rw [hmin1, hmax1]
  have hnfmid : ¬smid.activeParticles = smid.maxParticles := by
    show ¬s1.activeParticles = s1.maxParticles
    rw [halive.1, hcnt, hmaxp1]
    omega
  have hfrA : (addParticle m (1 - (smid.emitCounter - 1/10) / (1/10)) smid).emitCounter
      = smid.emitCounter := (addParticle_poolFrame m _ smid).2
  have hone := emitLoop_one_spawn m smid hecmid hfrA
  have heff := addParticle_effect m (1 - (smid.emitCounter - 1/10) / (1/10)) smid
    hnfmid hmmmid
  obtain ⟨L', hWA, hmemA⟩ :=
    addParticle_winv m (1 - (smid.emitCounter - 1/10) / (1/10)) hWmid
  have hpfA : poolFrame smid (addParticle m (1 - (smid.emitCounter - 1/10) / (1/10)) smid) :=
    addParticle_poolFrame m _ smid
  have hlcA : lifeCfgFrame smid (addParticle m (1 - (smid.emitCounter - 1/10) / (1/10)) smid) :=
    addParticle_lifeCfg m _ smid
  set sA : SysState := addParticle m (1 - (smid.emitCounter - 1/10) / (1/10)) smid
    with hsAdef
  set sB : SysState := { sA with emitCounter := sA.emitCounter - 1/10 } with hsBdef
  have hEL : emitLoop m (1 / s1.emissionRate)
      ((s1.emitCounter + 1/10) - 1 / s1.emissionRate)
      (emitFuel (s1.emitCounter + 1/10) (1 / s1.emissionRate))
      smid = sB := by
    have e1 : (1 : ℚ) / s1.emissionRate = 1/10 := by rw [hrate1]
    have e2 : (s1.emitCounter + 1/10) - 1 / s1.emissionRate = 1/10 := by
      rw [hec1, hrate1]; norm_num
    have e3 : emitFuel (s1.emitCounter + 1/10) (1 / s1.emissionRate) = 3 := by
      rw [hec1, hrate1]
      norm_num [emitFuel]
      decide
    rw [e2, e3, e1, hone]
  rw [hEL] at hep
  have hltB : ({ sB with life := sB.life - 1/10 } : SysState).lifetime = -1 := by
    show sA.lifetime = -1
    rw [hpfA.1.2.2.1]
    exact hlt1
  rw [if_pos hltB] at hep
  have hupd : update m (1/10) s =
      { emissionPhase m (1/10) s1 with
        prevPosition := (emissionPhase m (1/10) s1).position } := by
    unfold update
    rw [if_neg (show ¬(1:ℚ)/10 = 0 by norm_num)]
  rw [hep] at hupd
  rw [hupd]
  refine ⟨⟨L', ?_, ?_⟩, ?_, ?_, ?_, ?_, ?_, ?_, ?_, ?_⟩
  · exact WInv_of_eq_pool hWA rfl rfl rfl rfl rfl rfl rfl
  · intro i hi
    show B - 1/10 ≤ (sA.mem i).life
    rcases hmemA i hi with hiL | hif
    · have hlt' : i < smid.free := hWmid.2.2.2.2.1 i hiL
      rw [heff.2.2.2 i (Nat.ne_of_lt hlt')]
      exact halive.2.2.2 i hiL
    · subst hif
      rw [heff.2.2.1]
      show B - 1/10 ≤ s1.particleLifeMin
      rw [hmin1]
      linarith
  · show sA.activeParticles = c + 1
    rw [heff.1]
    show s1.activeParticles + 1 = c + 1
    rw [halive.1, hcnt]
  · show sA.emitCounter - 1/10 = 1/10
    rw [hpfA.2, hecmid]
    norm_num
  · show sA.active = true
    rw [hpfA.1.1]
    exact hact1
  · show sA.emissionRate = 10
    rw [hpfA.1.2.2.2.1]
    exact hrate1
  · show sA.lifetime = -1
    rw [hpfA.1.2.2.1]
    exact hlt1
  · show sA.particleLifeMin = 1000
    rw [hlcA.1]
    exact hmin1
  · show sA.particleLifeMax = 1000
    rw [hlcA.2]
    exact hmax1
  · show sA.maxParticles = 16
    rw [hpfA.1.2.2.2.2.2.2.1]
    exact hmaxp1

/-! ### Curve-evaluation lemmas -/

@[simp]
theorem truncToZero_zero : truncToZero 0 = 0 := by
  simp [truncToZero]

theorem truncToZero_natCast (k : ℕ) : truncToZero (k : ℚ) = k := by
  rw [truncToZero, if_pos (by positivity)]
  exact_mod_cast Int.floor_natCast k

theorem colorLerp_left (c d : Colorf) (s : ℚ) (hs : s = 0) :
    Colorf.add (c.smul (1 - s)) (d.smul s) = c := by
  subst hs
  cases c
  cases d
  simp [Colorf.smul, Colorf.add]

/-- The color curve evaluated at normalized age `0` yields the first
control point. -/
theorem evalColorCurve_zero (colors : List Colorf) :
    evalColorCurve colors 0 = colors.getD 0 ⟨0, 0, 0, 0⟩ := by
  unfold evalColorCurve
  dsimp only
  rw [zero_mul, truncToZero_zero, Int.toNat_zero]
  exact colorLerp_left _ _ _ (by norm_num)

/-- The color curve evaluated at normalized age `1` yields the last
control point; the upper bracketing index is clamped so the array is not
overrun. -/
theorem evalColorCurve_one (colors : List Colorf) (h : 1 ≤ colors.length) :
    evalColorCurve colors 1 = colors.getD (colors.length - 1) ⟨0, 0, 0, 0⟩ := by
  unfold evalColorCurve
  dsimp only
  have hcast : ((colors.length : ℚ) - 1) = ((colors.length - 1 : ℕ) : ℚ) := by
    rw [Nat.cast_sub h]
    norm_num
  rw [one_mul, hcast, truncToZero_natCast, Int.toNat_natCast, if_pos rfl]
  exact colorLerp_left _ _ _ (sub_self _)

/-- A single-point color curve is constant. -/
theorem evalColorCurve_singleton (c : Colorf) (t : ℚ) :
    evalColorCurve [c] t = c := by
  unfold evalColorCurve
  dsimp only
  have h0 : t * ((([c] : List Colorf).length : ℚ) - 1) = 0 := by
    norm_num
  rw [h0, truncToZero_zero, Int.toNat_zero]
  exact colorLerp_left _ _ _ (by norm_num)

theorem sizeLerp_left (a b s : ℚ) (hs : s = 0) : a * (1 - s) + b * s = a := by
  subst hs
  ring

/-- The size curve with the identity per-particle window
(`sizeOffset = 0`, `sizeIntervalSize = 1`) at age `0` yields the first
control point. -/
theorem evalSizeCurve_zero (sizes : List ℚ) :
    evalSizeCurve sizes 0 1 0 = sizes.getD 0 0 := by
  unfold evalSizeCurve
  dsimp only
  rw [show ((0 : ℚ) + 0 * 1) = 0 from by norm_num, zero_mul, truncToZero_zero,
    Int.toNat_zero]
  exact sizeLerp_left _ _ _ (by norm_num)

/-- The size curve with the identity window at age `1` yields the last
control point; the upper bracketing index is clamped. -/
theorem evalSizeCurve_one (sizes : List ℚ) (h : 1 ≤ sizes.length) :
    evalSizeCurve sizes 0 1 1 = sizes.getD (sizes.length - 1) 0 := by
  unfold evalSizeCurve
  dsimp only
  have hcast : ((sizes.length : ℚ) - 1) = ((sizes.length - 1 : ℕ) : ℚ) := by
    rw [Nat.cast_sub h]
    norm_num
  rw [show ((0 : ℚ) + 1 * 1) = 1 from by norm_num, one_mul, hcast,
    truncToZero_natCast, Int.toNat_natCast, if_pos rfl]
  exact sizeLerp_left _ _ _ (sub_self _)

/-- A single-point size curve is constant, for every per-particle window
and age. -/
theorem evalSizeCurve_singleton (x off isz t : ℚ) :
    evalSizeCurve [x] off isz t = x := by
  unfold evalSizeCurve
  dsimp only
  have h0 : (off + t * isz) * ((([x] : List ℚ).length : ℚ) - 1) = 0 := by
    norm_num
  rw [h0, truncToZero_zero, Int.toNat_zero]
  exact sizeLerp_left _ _ _ (by norm_num)

/-- The degenerate initial-size index of `initParticle` line 300 stays at
`0` — in particular within the bounds of any non-empty size array — as
long as the sampled `sizeOffset` lies in `[0, 1]`. -/
theorem initSizeIndex_zero_of_le_one {off : ℚ} (h0 : 0 ≤ off) (h1 : off ≤ 1)
    (n : ℕ) : initSizeIndex off n = 0 := by
  unfold initSizeIndex
  have htr : truncToZero (off - 1/2) = 0 := by
    unfold truncToZero
    split
    · rw [Int.floor_eq_zero_iff]
      constructor
      · assumption
      ·nlinarith
    · rw [Int.floor_eq_zero_iff.mpr ⟨by linarith, by linarith⟩]
      rfl
  rw [htr, zero_mul]

/-- The very first tick of the emission-count scenario spawns nothing:
the accumulator reaches exactly `1/10` and the spawn loop's comparison is
strict. -/
theorem C3_first (m : MathOps) : C3Mid 1000 0 (update m (1/10) c3State) := by
  have hc3 : c3State = { baseState with
      emissionRate := 10, particleLifeMin := 1000, particleLifeMax := 1000 } := by
    unfold c3State setParticleLifetime
    dsimp only
    rw [if_pos rfl]
  rw [hc3]
  set s0 : SysState := { baseState with
      emissionRate := 10, particleLifeMin := 1000, particleLifeMax := 1000 } with hs0
  have ha0 : s0.active = true := rfl
  have hr0 : ¬s0.emissionRate = 0 := by
    show ¬(10 : ℚ) = 0
    norm_num
  have hep := emissionPhase_rate_ne0 m (1/10) s0 ha0 hr0
  dsimp only at hep
  have hns : emitLoop m (1 / s0.emissionRate)
      ((s0.emitCounter + 1/10) - 1 / s0.emissionRate)
      (emitFuel (s0.emitCounter + 1/10) (1 / s0.emissionRate))
      { s0 with emitCounter := s0.emitCounter + 1/10 } =
      { s0 with emitCounter := s0.emitCounter + 1/10 } := by
    refine emitLoop_no_spawn m _ _ _ _ ?_
    show ¬(1 : ℚ) / s0.emissionRate < s0.emitCounter + 1/10
    show ¬(1 : ℚ) / 10 < 0 + 1/10
    norm_num
  rw [hns] at hep
  rw [if_pos (show ({ s0 with emitCounter := s0.emitCounter + 1/10 }
      : SysState).lifetime = -1 from rfl)] at hep
  have hupd : update m (1/10) s0 =
      { emissionPhase m (1/10) s0 with
        prevPosition := (emissionPhase m (1/10) s0).position } := by
    unfold update
    rw [if_neg (show ¬(1:ℚ)/10 = 0 by norm_num)]
    rfl
  rw [hep] at hupd
  rw [hupd]
  refine ⟨⟨[], ?_, ?_⟩, ?_, ?_, ?_, ?_, ?_, ?_, ?_, ?_⟩
  · exact ⟨dseg_nil, rfl, Or.inl rfl, List.nodup_nil,
      fun i hi => absurd hi (List.not_mem_nil i), rfl, rfl, Nat.zero_le _⟩
  · exact fun i hi => absurd hi (List.not_mem_nil i)
  · rfl
  · show (0 : ℚ) + 1/10 = 1/10
    norm_num
  · rfl
  · rfl
  · rfl
  · rfl
  · rfl
  · rfl

/-- Ten fixed `0.1 s` ticks of the emission-count scenario produce nine
particles, not ten: the first tick only raises the accumulator to the
spawn threshold without crossing it. -/
theorem c3_spawn_count :
    (iterUpdate zeroMath (1/10) 10 c3State).activeParticles = 9 := by
  have h1 := C3_first zeroMath
  have h2 := C3_step zeroMath _ _ _ h1 (by norm_num) (by norm_num) (by norm_num)
  have h3 := C3_step zeroMath _ _ _ h2 (by norm_num) (by norm_num) (by norm_num)
  have h4 := C3_step zeroMath _ _ _ h3 (by norm_num) (by norm_num) (by norm_num)
  have h5 := C3_step zeroMath _ _ _ h4 (by norm_num) (by norm_num) (by norm_num)
  have h6 := C3_step zeroMath _ _ _ h5 (by norm_num) (by norm_num) (by norm_num)
  have h7 := C3_step zeroMath _ _ _ h6 (by norm_num) (by norm_num) (by norm_num)
  have h8 := C3_step zeroMath _ _ _ h7 (by norm_num) (by norm_num) (by norm_num)
  have h9 := C3_step zeroMath _ _ _ h8 (by norm_num) (by norm_num) (by norm_num)
  have h10 := C3_step zeroMath _ _ _ h9 (by norm_num) (by norm_num) (by norm_num)
  have hfin := h10.2.1
  simp only [iterUpdate]
  rw [hfin]

/-! ### The claims -/

/-- C1: for every state reachable from a freshly constructed system by
`emit`/`update` (and the other public mutators), the active count stays
within the capacity (`0 ≤ activeParticleCount` holds by the count's type),
the active list entered from `pHead` carries exactly `activeParticleCount`
nodes, and no slot at or past the free boundary is ever linked into it. -/
theorem C1_capacity_invariant (s : SysState) (h : Reach s) :
    s.activeParticles ≤ s.maxParticles ∧
    ∃ L, WInv s L ∧ L.length = s.activeParticles ∧
      ∀ j, s.free ≤ j → j ∉ L := by
  obtain ⟨L, hW⟩ := h.inv
  obtain ⟨hseg, hhd, htl, hnd, hlt, hlen, hcnt, hcap⟩ := hW
  refine ⟨by rw [hcnt]; exact hcap, L,
    ⟨hseg, hhd, htl, hnd, hlt, hlen, hcnt, hcap⟩, by rw [hlen, hcnt], ?_⟩
  intro j hj hmem
  have := hlt j hmem
  omega

/-- C1 witness: the invariant at the concrete reachable state reached by
one `emit 3` from a fresh system. -/
theorem C1_capacity_invariant_witness :
    (emit 3 zeroMath baseState).activeParticles ≤
      (emit 3 zeroMath baseState).maxParticles ∧
    ∃ L, WInv (emit 3 zeroMath baseState) L ∧
      L.length = (emit 3 zeroMath baseState).activeParticles ∧
      ∀ j, (emit 3 zeroMath baseState).free ≤ j → j ∉ L :=
  C1_capacity_invariant _
    (Reach.emit 3 zeroMath (Reach.init baseState rfl rfl rfl rfl))

/-- C2: removing the active particle `p` unlinks it from the list
`A ++ p :: B` (healing neighbour links and the endpoints), compacts by
copying the last allocated slot's payload into `p`'s slot and decrementing
the free boundary and the count, and returns the logical next pointer —
with the compacted slot's new name substituted when the next was the moved
slot (the  `relabel` renaming). -/
theorem C2_remove_particle (s : SysState) (A B : List ℕ) (p : ℕ)
    (h : FullInv s (A ++ p :: B)) :
    (removeParticle p s).1 = (nextOf B none).map (relabel (s.free - 1) p) ∧
    ListShape (removeParticle p s).2.mem (removeParticle p s).2.head
      (removeParticle p s).2.tail ((A ++ B).map (relabel (s.free - 1) p)) ∧
    (removeParticle p s).2.free = s.free - 1 ∧
    (removeParticle p s).2.activeParticles = s.activeParticles - 1 ∧
    (p ≠ s.free - 1 →
      ((removeParticle p s).2.mem p).payload = (s.mem (s.free - 1)).payload) := by
  obtain ⟨⟨hseg, hhd, htl⟩, hnd, hlt, hlen, hcnt, hcap⟩ := h
  obtain ⟨r1, r2, r3, r4, r5, r6, r7, r8, r9, r10, r11, r12, r13⟩ :=
    removeParticle_spec hseg hhd (Or.inl htl) hnd hlt hlen
  exact ⟨r1, ⟨r2, r3, r5 htl⟩, r9, r10, r13⟩

/-- C2 witness: removing the middle particle of the concrete pool
`0 ↔ 1 ↔ 2`. -/
theorem C2_remove_particle_witness :
    (removeParticle 1 w2state).1 =
      (nextOf [2] none).map (relabel (w2state.free - 1) 1) ∧
    ListShape (removeParticle 1 w2state).2.mem (removeParticle 1 w2state).2.head
      (removeParticle 1 w2state).2.tail
      (([0] ++ [2]).map (relabel (w2state.free - 1) 1)) ∧
    (removeParticle 1 w2state).2.free = w2state.free - 1 ∧
    (removeParticle 1 w2state).2.activeParticles = w2state.activeParticles - 1 ∧
    (1 ≠ w2state.free - 1 →
      ((removeParticle 1 w2state).2.mem 1).payload =
        (w2state.mem (w2state.free - 1)).payload) :=
  C2_remove_particle w2state [0] [2] 1
    ⟨⟨⟨rfl, rfl, rfl, rfl, rfl, rfl, trivial⟩, rfl, rfl⟩,
      by decide, by decide, rfl, rfl, by decide⟩

/-- C3 (amended): in the spec's own test scenario — rate `10`, `dt = 0.1 s`,
`T = 1 s`, infinite emitter lifetime, particle lifetime `1000 s` so nothing
dies and the count equals the spawn total — ten `update` ticks spawn exactly
`9` particles, one fewer than the claimed `floor(T*r) = 10`: the strict
comparison `emitCounter > rate` means the first tick only fills the
accumulator to the threshold.  The count does stay within one event of
`floor(T*r)`, as the spec's quantization caveat allows. -/
theorem C3_emission_count :
    (iterUpdate zeroMath (1/10) 10 c3State).activeParticles = 9 :=
  c3_spawn_count

/-- C3 counterexample: the spec's "in particular … exactly 10 spawns" is
false — the same ten ticks leave 9 particles, not 10. -/
theorem C3_ten_spawns_counterexample :
    ¬(iterUpdate zeroMath (1/10) 10 c3State).activeParticles = 10 := by
  rw [c3_spawn_count]
  decide

/-- C4 (amended): `reset` drains the pool — the count is zero, the list is
empty (and well-formed), the accumulator is zero and the emitter's
remaining life is restored — and an update on the drained inactive system
is the empty-pool no-op; but it does NOT touch the `active` flag, so the
system is not in the stopped state after `reset` whenever it was running. -/
theorem C4_reset_drains (s : SysState) :
    (reset s).activeParticles = 0 ∧ (reset s).head = none ∧
    (reset s).emitCounter = 0 ∧ (reset s).life = s.lifetime ∧
    WInv (reset s) [] ∧ (reset s).active = s.active ∧
    ∀ (m : MathOps) (dt : ℚ), dt ≠ 0 → s.active = false →
      update m dt (reset s) =
        { reset s with prevPosition := (reset s).position } := by
  refine ⟨rfl, rfl, rfl, rfl, reset_winv s, rfl, ?_⟩
  intro m dt hdt hact
  have hep : emissionPhase m dt (reset s) = reset s := by
    unfold emissionPhase
    rw [if_neg (show ¬((reset s).active = true) from fun hcon => by
      have hx : s.active = true := hcon
      rw [hact] at hx
      exact Bool.noConfusion hx)]
  have hupd : update m dt (reset s) =
      { emissionPhase m dt (reset s) with
        prevPosition := (emissionPhase m dt (reset s)).position } := by
    unfold update
    rw [if_neg hdt]
    rfl
  rw [hupd, hep]

/-- C4 witness: the amended reset behaviour at a concrete paused system. -/
theorem C4_reset_drains_witness :
    (reset (pause baseState)).activeParticles = 0 ∧
    (reset (pause baseState)).head = none ∧
    (reset (pause baseState)).emitCounter = 0 ∧
    (reset (pause baseState)).life = (pause baseState).lifetime ∧
    WInv (reset (pause baseState)) [] ∧
    (reset (pause baseState)).active = (pause baseState).active ∧
    update zeroMath 1 (reset (pause baseState)) =
      { reset (pause baseState) with
        prevPosition := (reset (pause baseState)).position } := by
  obtain ⟨h1, h2, h3, h4, h5, h6, h7⟩ := C4_reset_drains (pause baseState)
  exact ⟨h1, h2, h3, h4, h5, h6, h7 zeroMath 1 (by norm_num) rfl⟩

/-- C4 counterexample: `reset` called on a running emitter leaves it
running — `isStopped` is false afterwards, against the claimed
"any → Stopped" transition. -/
theorem C4_not_stopped_counterexample : isStopped (reset c4State) = false := rfl

/-- C5 (amended): `update` on an active emitter decrements the emitter's
remaining life by `dt` UNCONDITIONALLY — also when the configured lifetime
is infinite (`-1`), against the claim's "only if finite"; the automatic
transition to the stopped state (flag cleared, life restored to the
configured lifetime, accumulator zeroed) happens exactly when the lifetime
is finite and the decremented life went negative. -/
theorem C5_emitter_lifetime (m : MathOps) (dt : ℚ) (s : SysState)
    (ha : s.active = true) (hdt : dt ≠ 0) :
    ((s.lifetime ≠ -1 ∧ s.life - dt < 0) →
      (update m dt s).active = false ∧
      (update m dt s).life = s.lifetime ∧
      (update m dt s).emitCounter = 0) ∧
    (¬(s.lifetime ≠ -1 ∧ s.life - dt < 0) →
      (update m dt s).life = s.life - dt ∧
      (update m dt s).active = true) := by
  set s1 : SysState := updateLoop m dt s.activeParticles s.head s with hs1
  have hpf : poolFrame s s1 := updateLoop_poolFrame m dt s.activeParticles s.head s
  have hee := emissionPhase_emitter m dt s1 (hpf.1.1.trans ha)
  have hupd : update m dt s =
      { emissionPhase m dt s1 with
        prevPosition := (emissionPhase m dt s1).position } := by
    unfold update
    rw [if_neg hdt]
  rw [hupd]
  constructor
  · intro hcond
    have hcond1 : s1.lifetime ≠ -1 ∧ s1.life - dt < 0 := by
      rw [hpf.1.2.2.1, hpf.1.2.1]
      exact hcond
    obtain ⟨h1, h2, h3⟩ := hee.2.1 hcond1
    refine ⟨h1, ?_, h3⟩
    show (emissionPhase m dt s1).life = s.lifetime
    rw [h2, hpf.1.2.2.1]
  · intro hcond
    have hcond1 : ¬(s1.lifetime ≠ -1 ∧ s1.life - dt < 0) := by
      rw [hpf.1.2.2.1, hpf.1.2.1]
      exact hcond
    obtain ⟨h1, h2⟩ := hee.2.2 hcond1
    refine ⟨?_, h2⟩
    show (emissionPhase m dt s1).life = s.life - dt
    rw [h1, hpf.1.2.1]

/-- C5 witness: a finite-lifetime emitter (`life 3`, `lifetime 10`) ticked
past its remaining life stops: flag cleared, life restored, accumulator
zeroed. -/
theorem C5_emitter_lifetime_witness :
    (update zeroMath 4 c4State).active = false ∧
    (update zeroMath 4 c4State).life = c4State.lifetime ∧
    (update zeroMath 4 c4State).emitCounter = 0 :=
  (C5_emitter_lifetime zeroMath 4 c4State rfl (by norm_num)).1
    ⟨show (10 : ℚ) ≠ -1 by norm_num, show (3 : ℚ) - 4 < 0 by norm_num⟩

/-- C5 counterexample: with an infinite configured lifetime (`-1`) the
remaining life is still decremented — `5` becomes `4` after a `1 s` tick —
against the claim's "only if the configured lifetime is finite". -/
theorem C5_infinite_decrement_counterexample :
    c5State.lifetime = -1 ∧ (update zeroMath 1 c5State).life = 4 := by
  refine ⟨rfl, ?_⟩
  have hep := emissionPhase_rate0 zeroMath 1 c5State rfl rfl
  dsimp only at hep
  rw [if_pos (show c5State.lifetime = -1 from rfl)] at hep
  have hupd : update zeroMath 1 c5State =
      { emissionPhase zeroMath 1 c5State with
        prevPosition := (emissionPhase zeroMath 1 c5State).position } := by
    unfold update
    rw [if_neg (show ¬(1 : ℚ) = 0 by norm_num)]
    rfl
  rw [hupd, hep]
  show (5 : ℚ) - 1 = 4
  norm_num

/-- C6: with the emitter active and a zero emission rate, `update` emits
nothing — the emission phase leaves the count and every pool slot exactly
as the traversal left them (the source's `1.0f / 0.0f` is `+inf`, so the
strict spawn-loop comparison never fires; the model has no division to
trap on), and the whole tick cannot increase the count. -/
theorem C6_zero_rate_no_emission (m : MathOps) (dt : ℚ) (s : SysState)
    (ha : s.active = true) (hr : s.emissionRate = 0) :
    (emissionPhase m dt s).activeParticles = s.activeParticles ∧
    (∀ j, (emissionPhase m dt s).mem j = s.mem j) ∧
    (update m dt s).activeParticles ≤ s.activeParticles := by
  have hcnt : ∀ s' : SysState, s'.active = true → s'.emissionRate = 0 →
      (emissionPhase m dt s').activeParticles = s'.activeParticles ∧
      ∀ j, (emissionPhase m dt s').mem j = s'.mem j := by
    intro s' ha' hr'
    have hep' := emissionPhase_rate0 m dt s' ha' hr'
    dsimp only at hep'
    rw [hep']
    by_cases h1 : s'.lifetime = -1
    · rw [if_pos h1]
      exact ⟨rfl, fun _ => rfl⟩
    · rw [if_neg h1]
      by_cases h2 : s'.life - dt < 0
      · rw [if_pos h2]
        exact ⟨rfl, fun _ => rfl⟩
      · rw [if_neg h2]
        exact ⟨rfl, fun _ => rfl⟩
  refine ⟨(hcnt s ha hr).1, (hcnt s ha hr).2, ?_⟩
  by_cases hdt : dt = 0
  · rw [show update m dt s = s from by unfold update; rw [if_pos hdt]]
  · have hpf : poolFrame s (updateLoop m dt s.activeParticles s.head s) :=
      updateLoop_poolFrame m dt s.activeParticles s.head s
    have hupd : update m dt s =
        { emissionPhase m dt (updateLoop m dt s.activeParticles s.head s) with
          prevPosition :=
            (emissionPhase m dt (updateLoop m dt s.activeParticles s.head s)).position } := by
      unfold update
      rw [if_neg hdt]
    rw [hupd]
    show (emissionPhase m dt (updateLoop m dt s.activeParticles s.head s)).activeParticles
      ≤ s.activeParticles
    rw [(hcnt _ (hpf.1.1.trans ha) (hpf.1.2.2.2.1.trans hr)).1]
    exact updateLoop_count_le m dt s.activeParticles s.head s

/-- C6 witness: the zero-rate no-emission behaviour at a concrete active
zero-rate system. -/
theorem C6_zero_rate_no_emission_witness :
    (emissionPhase zeroMath 1 c5State).activeParticles = c5State.activeParticles ∧
    (∀ j, (emissionPhase zeroMath 1 c5State).mem j = c5State.mem j) ∧
    (update zeroMath 1 c5State).activeParticles ≤ c5State.activeParticles :=
  C6_zero_rate_no_emission zeroMath 1 c5State rfl rfl

/-- C8: `stop` moves the system to the stopped state (`isStopped` holds
afterwards), restores the emitter's remaining life to the configured
lifetime and zeroes the accumulator, while the pool — count, list heads,
free boundary and every slot — is untouched. -/
theorem C8_stop_frame (s : SysState) :
    isStopped (stop s) = true ∧ (stop s).life = s.lifetime ∧
    (stop s).emitCounter = 0 ∧
    (stop s).activeParticles = s.activeParticles ∧
    (stop s).head = s.head ∧ (stop s).tail = s.tail ∧
    (stop s).free = s.free ∧ ∀ j, (stop s).mem j = s.mem j := by
  refine ⟨?_, rfl, rfl, rfl, rfl, rfl, rfl, fun _ => rfl⟩
  show (!false && decide (s.lifetime ≤ s.lifetime)) = true
  simp

/-- C7 (amended): the boundary identities hold for the curve evaluators
with the identity per-particle window (`sizeOffset = 0`,
`sizeIntervalSize = 1`, the only window reachable with zero size
variation) and for the color curve always: age `0` yields the first
control point, age `1` the last (the bracketing index is clamped there),
and a one-point array is constant.  For the size curve the claim's "for
every active particle" fails: a nonzero size variation shifts the window
(see the counterexample). -/
theorem C7_curve_boundaries (sizes : List ℚ) (colors : List Colorf)
    (hs : 1 ≤ sizes.length) (hc : 1 ≤ colors.length) :
    evalSizeCurve sizes 0 1 0 = sizes.getD 0 0 ∧
    evalSizeCurve sizes 0 1 1 = sizes.getD (sizes.length - 1) 0 ∧
    evalColorCurve colors 0 = colors.getD 0 ⟨0, 0, 0, 0⟩ ∧
    evalColorCurve colors 1 = colors.getD (colors.length - 1) ⟨0, 0, 0, 0⟩ ∧
    (∀ x t, evalSizeCurve [x] 0 1 t = x) ∧
    (∀ c t, evalColorCurve [c] t = c) :=
  ⟨evalSizeCurve_zero sizes, evalSizeCurve_one sizes hs,
   evalColorCurve_zero colors, evalColorCurve_one colors hc,
   fun x t => evalSizeCurve_singleton x 0 1 t,
   fun c t => evalColorCurve_singleton c t⟩

/-- C7 witness: the boundary identities at concrete two-point curves. -/
theorem C7_curve_boundaries_witness :
    evalSizeCurve [1, 2] 0 1 0 = ([1, 2] : List ℚ).getD 0 0 ∧
    evalSizeCurve [1, 2] 0 1 1 = ([1, 2] : List ℚ).getD (([1, 2] : List ℚ).length - 1) 0 ∧
    evalColorCurve [⟨1, 1, 1, 1⟩, ⟨0, 0, 0, 1⟩] 0 =
      ([⟨1, 1, 1, 1⟩, ⟨0, 0, 0, 1⟩] : List Colorf).getD 0 ⟨0, 0, 0, 0⟩ ∧
    evalColorCurve [⟨1, 1, 1, 1⟩, ⟨0, 0, 0, 1⟩] 1 =
      ([⟨1, 1, 1, 1⟩, ⟨0, 0, 0, 1⟩] : List Colorf).getD
        (([⟨1, 1, 1, 1⟩, ⟨0, 0, 0, 1⟩] : List Colorf).length - 1) ⟨0, 0, 0, 0⟩ ∧
    (∀ x t, evalSizeCurve [x] 0 1 t = x) ∧
    (∀ c t, evalColorCurve [c] t = c) :=
  C7_curve_boundaries [1, 2] [⟨1, 1, 1, 1⟩, ⟨0, 0, 0, 1⟩] (by decide) (by decide)

/-- C7 counterexample: a particle spawned with size variation `1` whose
`sizeOffset` draw is `1/2` gets the window `(1/2, 1/2)`; at normalized age
`t = 0` the size curve `[1, 2]` then evaluates to `3/2`, not the first
control point `1` — the claimed `t = 0` boundary identity fails for this
active particle. -/
theorem C7_size_window_counterexample :
    ((initParticle zeroMath c7State 1 Particle.blank).1).sizeOffset = 1/2 ∧
    ((initParticle zeroMath c7State 1 Particle.blank).1).sizeIntervalSize = 1/2 ∧
    evalSizeCurve c7State.sizes (1/2) (1/2) 0 = 3/2 ∧
    c7State.sizes.getD 0 0 = 1 ∧ (3 : ℚ)/2 ≠ 1 := by
  refine ⟨?_, ?_, ?_, rfl, by norm_num⟩
  · unfold initParticle
    norm_num [RNG.random2, RNG.random1, RNG.random, RNG.randomNormal,
      calcVariation, c7State, c7RNG, baseState, zeroMath]
  · unfold initParticle
    norm_num [RNG.random2, RNG.random1, RNG.random, RNG.randomNormal,
      calcVariation, c7State, c7RNG, baseState, zeroMath]
  · norm_num [evalSizeCurve, truncToZero, c7State, baseState]

/-- C9 (amended): the initial-size index is the UNCLAMPED product
`trunc(sizeOffset - 1/2) * (n - 1)`; it stays inside the array exactly
because the sampled offset lies in `[0, 1]` whenever `sizeVariation ≤ 1`
(the draw is `uniform * sizeVariation`), in which case the index is `0`.
`setSizeVariation` does not restrict the variation, and for a variation
above `1` the index can leave the array (see the counterexample) — an
out-of-bounds read in the source, not a clamp. -/
theorem C9_size_index_in_bounds (off : ℚ) (n : ℕ) (h0 : 0 ≤ off)
    (h1 : off ≤ 1) (hn : 1 ≤ n) : (initSizeIndex off n).toNat < n := by
  rw [initSizeIndex_zero_of_le_one h0 h1]
  exact lt_of_lt_of_le Nat.zero_lt_one hn

/-- C9 witness: the in-range index at a concrete offset and array size. -/
theorem C9_size_index_in_bounds_witness : (initSizeIndex (1/2) 2).toNat < 2 :=
  C9_size_index_in_bounds (1/2) 2 (by norm_num) (by norm_num) (by norm_num)

/-- C9 counterexample: with size variation `3` (accepted unchecked by
`setSizeVariation`) and a `sizeOffset` draw of `99/100`, the sampled
offset is `297/100` and the initial-size index over the two-point array is
`2` — out of bounds, so the index arithmetic is not clamped to the array. -/
theorem C9_oob_counterexample :
    ((initParticle zeroMath c9State 1 Particle.blank).1).sizeOffset = 297/100 ∧
    initSizeIndex (297/100) c9State.sizes.length = 2 ∧
    ¬((initSizeIndex (297/100) c9State.sizes.length).toNat <
        c9State.sizes.length) := by
  refine ⟨?_, ?_, ?_⟩
  · unfold initParticle
    norm_num [RNG.random2, RNG.random1, RNG.random, RNG.randomNormal,
      calcVariation, c9State, c9RNG, baseState, zeroMath]
  · show initSizeIndex (297/100) 2 = 2
    norm_num [initSizeIndex, truncToZero]
  · show ¬((initSizeIndex (297/100) 2).toNat < 2)
    rw [show initSizeIndex (297/100) 2 = 2 from by
      norm_num [initSizeIndex, truncToZero]]
    decide

/-- C10: `setParticleLifetime` always stores `min`; a zero `max` acts as a
use-the-minimum sentinel, a nonzero `max` is stored as given. -/
theorem C10_set_particle_lifetime (pmin pmax : ℚ) (s : SysState) :
    (setParticleLifetime pmin pmax s).particleLifeMin = pmin ∧
    (setParticleLifetime pmin pmax s).particleLifeMax =
      (if pmax = 0 then pmin else pmax) := by
  unfold setParticleLifetime
  dsimp only
  by_cases h : pmax = 0
  · rw [if_pos h, if_pos h]
    exact ⟨rfl, rfl⟩
  · rw [if_neg h, if_neg h]
    exact ⟨rfl, rfl⟩

end Love
